import Mathlib

/-!
# Verification of the fun-walk OSM routing engine

Shallow embedding of `src/fun-path-nextjs/src/services/routeEngine.ts`
(class `OSMRoutingEngine`).  JavaScript `Map`s are modelled as
insertion-ordered association lists (`SMap`), JavaScript numbers that can
be `Infinity` as `JNum`, and finite numeric values as rationals.  The
haversine distance function (`calculateDistance`) uses transcendental
floating-point operations, so the whole engine is parameterized by an
abstract distance function `DistFn`; theorems that need facts about it
(non-negativity, vanishing on equal coordinates) take them as hypotheses,
all of which the real haversine satisfies.
-/

namespace FunWalk

/-- A JavaScript `Map` with `String` keys: an association list iterated in
insertion order, keys unique. -/
abbrev SMap (α : Type) := List (String × α)

/-- `Map.prototype.get`: the value stored at `k`, if any. -/
def mapGet {α : Type} (m : SMap α) (k : String) : Option α :=
  match m with
  | [] => none
  | (k', v) :: rest => if k' = k then some v else mapGet rest k

/-- `Map.prototype.set`: update in place if the key exists (keeping its
insertion position), otherwise append at the end. -/
def mapSet {α : Type} (m : SMap α) (k : String) (v : α) : SMap α :=
  match m with
  | [] => [(k, v)]
  | (k', v') :: rest => if k' = k then (k, v) :: rest else (k', v') :: mapSet rest k v

/-- `Map.prototype.has`. -/
def mapHas {α : Type} (m : SMap α) (k : String) : Bool :=
  (mapGet m k).isSome

/-- The keys of a map, in insertion order. -/
def mapKeys {α : Type} (m : SMap α) : List String :=
  m.map Prod.fst

theorem mapGet_mapSet_self {α : Type} (m : SMap α) (k : String) (v : α) :
    mapGet (mapSet m k v) k = some v := by
  induction m with
  | nil => simp [mapSet, mapGet]
  | cons p rest ih =>
    obtain ⟨k', v'⟩ := p
    by_cases h : k' = k
    · simp [mapSet, mapGet, h]
    · simp [mapSet, mapGet, h, ih]

theorem mapGet_mapSet_ne {α : Type} (m : SMap α) (k k' : String) (v : α)
    (h : k' ≠ k) : mapGet (mapSet m k v) k' = mapGet m k' := by
  induction m with
  | nil => simp [mapSet, mapGet, Ne.symm h]
  | cons p rest ih =>
    obtain ⟨k₀, v₀⟩ := p
    by_cases h₀ : k₀ = k
    · subst h₀
      simp [mapSet, mapGet, Ne.symm h]
    · simp [mapSet, mapGet, h₀, ih]

theorem mapGet_mapSet_cases {α : Type} (m : SMap α) (k k' : String) (v v' : α)
    (h : mapGet (mapSet m k v) k' = some v') :
    (k' = k ∧ v' = v) ∨ mapGet m k' = some v' := by
  by_cases hk : k' = k
  · subst hk
    rw [mapGet_mapSet_self] at h
    exact Or.inl ⟨rfl, (Option.some_injective _ h).symm⟩
  · rw [mapGet_mapSet_ne m k k' v hk] at h
    exact Or.inr h

theorem mapHas_mapSet {α : Type} (m : SMap α) (k k' : String) (v : α)
    (h : mapHas m k' = true) : mapHas (mapSet m k v) k' = true := by
  by_cases hk : k' = k
  · subst hk
    simp [mapHas, mapGet_mapSet_self]
  · simpa [mapHas, mapGet_mapSet_ne m k k' v hk] using h

theorem mapHas_mapSet_self {α : Type} (m : SMap α) (k : String) (v : α) :
    mapHas (mapSet m k v) k = true := by
  simp [mapHas, mapGet_mapSet_self]

/-- A coordinate, as in `types/route.ts`. -/
structure Coordinate where
  lat : ℚ
  lng : ℚ
deriving DecidableEq

/-- Abstract stand-in for `calculateDistance` (haversine, meters). -/
abbrev DistFn := Coordinate → Coordinate → ℚ

/-- Absolute value written with an executable conditional. -/
def absQ (q : ℚ) : ℚ := if q < 0 then -q else q

/-- A concrete distance function used for witnesses and counterexamples:
taxicab distance on the coordinate plane.  Like the haversine it is
non-negative, symmetric and vanishes exactly on equal coordinates. -/
def distEx (a b : Coordinate) : ℚ :=
  absQ (a.lat - b.lat) + absQ (a.lng - b.lng)

theorem absQ_nonneg (q : ℚ) : 0 ≤ absQ q := by
  unfold absQ
  split_ifs with h
  · linarith
  · linarith

theorem distEx_nonneg (a b : Coordinate) : 0 ≤ distEx a b :=
  add_nonneg (absQ_nonneg _) (absQ_nonneg _)

/-- `interface OSMNode` from `routeEngine.ts`. -/
structure OSMNode where
  id : String
  lat : ℚ
  lng : ℚ
  tags : SMap String
deriving DecidableEq

/-- The coordinate of a node (`{ lat: node.lat, lng: node.lng }`). -/
def OSMNode.coord (n : OSMNode) : Coordinate := ⟨n.lat, n.lng⟩

/-- `interface OSMWay` from `routeEngine.ts`.  The optional numeric fields
`length?` and `fun_weight?` are modelled with default `0`; JavaScript code
only reads them through `||` guards or after assigning them, and `0` and
`undefined` behave identically under `||`. -/
structure OSMWay where
  id : String
  nodes : List String
  tags : SMap String
  length : ℚ := 0
  fun_weight : ℚ := 0
deriving DecidableEq

/-- One element of an adjacency list:
`{ nodeId, wayId, distance, fun_weight }`. -/
structure AdjEntry where
  nodeId : String
  wayId : String
  distance : ℚ
  fun_weight : ℚ
deriving DecidableEq

/-- `interface OSMGraph`. -/
structure OSMGraph where
  nodes : SMap OSMNode
  ways : SMap OSMWay
  adjacency : SMap (List AdjEntry)
deriving DecidableEq

/-- A JavaScript number that is either finite or `Infinity` (the only two
shapes the search code produces). -/
inductive JNum where
  | fin (q : ℚ)
  | inf
deriving DecidableEq

/-- `<` on such numbers. -/
def jLt : JNum → JNum → Bool
  | .fin a, .fin b => a < b
  | .fin _, .inf => true
  | .inf, _ => false

/-- `+` on such numbers. -/
def jAdd : JNum → JNum → JNum
  | .fin a, .fin b => .fin (a + b)
  | _, _ => .inf

/-- JavaScript `x || Infinity` applied to a possibly-missing map value:
`undefined` and the falsy number `0` both become `Infinity`. -/
def jOrInf : Option JNum → JNum
  | some (.fin q) => if q = 0 then .inf else .fin q
  | some .inf => .inf
  | none => .inf

/-- JavaScript `x || 0` applied to a possibly-missing map value:
`undefined` becomes `0`; `0` stays `0`; any truthy number is kept. -/
def jOrZero : Option JNum → JNum
  | some v => v
  | none => .fin 0

/-- One raw Overpass element (`OverpassResponse` payload): a point node
(with possibly missing coordinates) or a way with its ordered node-id
list.  Numeric OSM ids are already rendered as strings, mirroring the
`element.id.toString()` conversions in `buildGraph`. -/
inductive OSMElement where
  | node (id : String) (lat lng : Option ℚ) (tags : SMap String)
  | way (id : String) (nodes : List String) (tags : SMap String)
deriving DecidableEq

/-- `FUN_HIGHWAYS` — highway classes that earn the dedicated walking
surface bonus. -/
def FUN_HIGHWAYS : List String :=
  ["footway", "path", "pedestrian", "track", "steps", "cycleway"]

/-- `String.prototype.includes(sub)` for a non-empty needle. -/
def strContains (s sub : String) : Bool :=
  (s.splitOn sub).length > 1

/-- A tag value read with JavaScript truthiness: present and non-empty. -/
def tagTruthy (tags : SMap String) (key : String) : Bool :=
  match mapGet tags key with
  | some v => v ≠ ""
  | none => false

/-- `highway && FUN_HIGHWAYS.has(highway)` in `calculateFunWeight`. -/
def hasFunHighway (tags : SMap String) : Bool :=
  match mapGet tags "highway" with
  | some h => decide (h ∈ FUN_HIGHWAYS)
  | none => false

/-- `way.tags.waterway || (way.tags.name && way.tags.name.toLowerCase().includes('water'))`. -/
def hasWaterFeature (tags : SMap String) : Bool :=
  tagTruthy tags "waterway" ||
    (match mapGet tags "name" with
     | some n => n ≠ "" && strContains n.toLower "water"
     | none => false)

/-- `way.tags.scenic === 'yes' || way.tags.name?.toLowerCase().includes('scenic')`. -/
def hasScenic (tags : SMap String) : Bool :=
  (mapGet tags "scenic" = some "yes" : Bool) ||
    (match mapGet tags "name" with
     | some n => strContains n.toLower "scenic"
     | none => false)

/-- `OSMRoutingEngine.calculateFunWeight`, transcribed statement by
statement: the score accumulates bonuses and the result is
`length / score`. -/
def calculateFunWeight (way : OSMWay) (len : ℚ) : ℚ :=
  let score : ℚ := 1
  let score := if hasFunHighway way.tags then score + 2 else score
  let score := if mapGet way.tags "leisure" = some "park" then score + 3/2 else score
  let score := if mapGet way.tags "tourism" = some "viewpoint" ∨
                  mapGet way.tags "tourism" = some "attraction" then score + 3 else score
  let score := if mapGet way.tags "landuse" = some "forest" ∨
                  mapGet way.tags "natural" = some "wood" then score + 3/2 else score
  let score := if hasWaterFeature way.tags then score + 3/2 else score
  let score := if tagTruthy way.tags "historic" then score + 2 else score
  let score := if hasScenic way.tags then score + 5/2 else score
  len / score

/-- Spec-side bonus: +2.0 for a dedicated walking surface tag. -/
def walkBonus (way : OSMWay) : ℚ := if hasFunHighway way.tags then 2 else 0

/-- Spec-side bonus: +1.5 for park. -/
def parkBonus (way : OSMWay) : ℚ :=
  if mapGet way.tags "leisure" = some "park" then 3/2 else 0

/-- Spec-side bonus: +3.0 for viewpoint/attraction. -/
def viewpointBonus (way : OSMWay) : ℚ :=
  if mapGet way.tags "tourism" = some "viewpoint" ∨
     mapGet way.tags "tourism" = some "attraction" then 3 else 0

/-- Spec-side bonus: +1.5 for forest/wood. -/
def forestBonus (way : OSMWay) : ℚ :=
  if mapGet way.tags "landuse" = some "forest" ∨
     mapGet way.tags "natural" = some "wood" then 3/2 else 0

/-- Spec-side bonus: +1.5 for a water feature. -/
def waterBonus (way : OSMWay) : ℚ := if hasWaterFeature way.tags then 3/2 else 0

/-- Spec-side bonus: +2.0 for historic. -/
def historicBonus (way : OSMWay) : ℚ := if tagTruthy way.tags "historic" then 2 else 0

/-- Spec-side bonus: +2.5 for explicitly scenic tags. -/
def scenicBonus (way : OSMWay) : ℚ := if hasScenic way.tags then 5/2 else 0

/-- The spec's "interest score": starts at 1.0 and is incremented,
additively and independently, by the seven fixed bonuses. -/
def interestScore (way : OSMWay) : ℚ :=
  1 + walkBonus way + parkBonus way + viewpointBonus way + forestBonus way +
    waterBonus way + historicBonus way + scenicBonus way

/-- `buildGraph`, first pass: collect nodes with known coordinates. -/
def collectNodes (elems : List OSMElement) : SMap OSMNode :=
  elems.foldl
    (fun m e =>
      match e with
      | .node id (some lat) (some lng) tags => mapSet m id ⟨id, lat, lng, tags⟩
      | _ => m)
    []

/-- Way length: sum of distances between consecutive resolved nodes. -/
def wayLength (dist : DistFn) (nodes : SMap OSMNode) : List String → ℚ
  | a :: b :: rest =>
      (match mapGet nodes a, mapGet nodes b with
       | some n1, some n2 => dist n1.coord n2.coord
       | _, _ => 0) + wayLength dist nodes (b :: rest)
  | _ => 0

/-- One step of the `tempWays` filter of `buildGraph`: a way element is
kept if it is pedestrian-accessible, not motorway/trunk class, resolves at
least two nodes, and is at least 1 meter long. -/
def tempWayStep (dist : DistFn) (nodes : SMap OSMNode) (acc : List OSMWay)
    (e : OSMElement) : List OSMWay :=
  match e with
  | .way id wayNodes tags =>
      if wayNodes.length > 1 then
        if mapGet tags "foot" = some "no" ∨ mapGet tags "access" = some "private" then acc
        else if mapGet tags "highway" = some "motorway" ∨
                mapGet tags "highway" = some "trunk" ∨
                mapGet tags "highway" = some "motorway_link" ∨
                mapGet tags "highway" = some "trunk_link" then acc
        else
          let validNodes := wayNodes.filter (fun nid => mapHas nodes nid)
          if validNodes.length < 2 then acc
          else
            let totalLength := wayLength dist nodes validNodes
            if totalLength < 1 then acc
            else acc ++ [{ id := id, nodes := validNodes, tags := tags,
                           length := totalLength }]
      else acc
  | _ => acc

/-- `buildGraph`, second pass: filter walkable ways into `tempWays`. -/
def collectTempWaysAux (dist : DistFn) (nodes : SMap OSMNode) :
    List OSMElement → List OSMWay → List OSMWay
  | [], acc => acc
  | e :: rest, acc =>
      collectTempWaysAux dist nodes rest (tempWayStep dist nodes acc e)

/-- `buildGraph`, second pass, from the empty accumulator. -/
def collectTempWays (dist : DistFn) (nodes : SMap OSMNode)
    (elems : List OSMElement) : List OSMWay :=
  collectTempWaysAux dist nodes elems []

/-- Modelled from the spec: `OSMRoutingEngine.detectAndReclassifyAdjacentPaths`
is called from `buildGraph` but its definition is missing from the source
tree.  Per the spec, a footway/path/track way whose geometry runs within a
small lateral tolerance of a vehicle road for most of its length is
reclassified as an adjacent sidewalk before fun-scoring.  The geometric
test ("within a small lateral tolerance … for most of its length", an
implementation parameter) is abstracted as the deterministic predicate
`adjacent`. -/
def detectAndReclassifyAdjacentPaths (adjacent : OSMWay → Bool)
    (ways : List OSMWay) : List OSMWay :=
  ways.map
    (fun w =>
      if (mapGet w.tags "highway" = some "footway" ∨
          mapGet w.tags "highway" = some "path" ∨
          mapGet w.tags "highway" = some "track") ∧ adjacent w = true
      then { w with tags := mapSet w.tags "highway" "adjacent_sidewalk" }
      else w)

/-- Append an adjacency entry to a node's list, creating the list if the
node has none yet (`if (!adjacency.has(id)) adjacency.set(id, []); …push`). -/
def adjPush (adj : SMap (List AdjEntry)) (k : String) (e : AdjEntry) :
    SMap (List AdjEntry) :=
  match mapGet adj k with
  | some l => mapSet adj k (l ++ [e])
  | none => adj ++ [(k, [e])]

/-- One segment of `buildGraph`'s adjacency loop: when both endpoints
resolve, push the two directed adjacency entries with the proportionally
apportioned fun-weight (`(way.fun_weight || segmentDistance) *
(segmentDistance / way.length!)`). -/
def segUpdate (dist : DistFn) (nodes : SMap OSMNode) (way : OSMWay)
    (a b : String) (adj : SMap (List AdjEntry)) : SMap (List AdjEntry) :=
  match mapGet nodes a, mapGet nodes b with
  | some n1, some n2 =>
      let d := dist n1.coord n2.coord
      let sfw := (if way.fun_weight = 0 then d else way.fun_weight) *
                   (d / way.length)
      adjPush (adjPush adj a ⟨b, way.id, d, sfw⟩) b ⟨a, way.id, d, sfw⟩
  | _, _ => adj

/-- Add both directed adjacency entries for every consecutive node pair of
a way (`buildGraph`'s inner adjacency loop). -/
def addWaySegs (dist : DistFn) (nodes : SMap OSMNode) (way : OSMWay) :
    List String → SMap (List AdjEntry) → SMap (List AdjEntry)
  | a :: b :: rest, adj =>
      addWaySegs dist nodes way (b :: rest) (segUpdate dist nodes way a b adj)
  | _, adj => adj

/-- `buildGraph`, third pass: assign each way its fun-weight and build the
undirected adjacency structure. -/
def processWaysAux (dist : DistFn) (nodes : SMap OSMNode) :
    List OSMWay → SMap OSMWay × SMap (List AdjEntry) →
      SMap OSMWay × SMap (List AdjEntry)
  | [], acc => acc
  | w :: ws, acc =>
      let w' := { w with fun_weight := calculateFunWeight w w.length }
      processWaysAux dist nodes ws
        (mapSet acc.1 w'.id w', addWaySegs dist nodes w' w'.nodes acc.2)

/-- `buildGraph`, third pass, from empty accumulators. -/
def processWays (dist : DistFn) (nodes : SMap OSMNode) (ways : List OSMWay) :
    SMap OSMWay × SMap (List AdjEntry) :=
  processWaysAux dist nodes ways ([], [])

/-- `buildGraph`, pruning: keep only nodes that have connections. -/
def collectConnectedAux (nodes : SMap OSMNode) :
    List (String × List AdjEntry) → SMap OSMNode → SMap OSMNode
  | [], m => m
  | p :: rest, m =>
      collectConnectedAux nodes rest
        (if p.2.length > 0 then
           match mapGet nodes p.1 with
           | some n => mapSet m p.1 n
           | none => m
         else m)

/-- `buildGraph`, pruning, from the empty accumulator. -/
def collectConnected (nodes : SMap OSMNode) (adj : SMap (List AdjEntry)) :
    SMap OSMNode :=
  collectConnectedAux nodes adj []

/-- One step of the final-adjacency rebuild: keep a connected key's
connections filtered to connected targets, when any remain. -/
def bfaStep (connected : SMap OSMNode) (m : SMap (List AdjEntry))
    (p : String × List AdjEntry) : SMap (List AdjEntry) :=
  if mapHas connected p.1 then
    (let valid := p.2.filter (fun c => mapHas connected c.nodeId)
     if valid.length > 0 then mapSet m p.1 valid else m)
  else m

/-- `buildGraph`, pruning: restrict adjacency lists to connected nodes. -/
def buildFinalAdjacencyAux (connected : SMap OSMNode) :
    List (String × List AdjEntry) → SMap (List AdjEntry) →
      SMap (List AdjEntry)
  | [], m => m
  | p :: rest, m =>
      buildFinalAdjacencyAux connected rest (bfaStep connected m p)

/-- `buildGraph`, pruning, from the empty accumulator. -/
def buildFinalAdjacency (connected : SMap OSMNode)
    (adj : SMap (List AdjEntry)) : SMap (List AdjEntry) :=
  buildFinalAdjacencyAux connected adj []

/-- `OSMRoutingEngine.buildGraph`, end to end. -/
def buildGraph (dist : DistFn) (adjacent : OSMWay → Bool)
    (elems : List OSMElement) : OSMGraph :=
  let nodes := collectNodes elems
  let tempWays := collectTempWays dist nodes elems
  let tempWays := detectAndReclassifyAdjacentPaths adjacent tempWays
  let wa := processWays dist nodes tempWays
  let connected := collectConnected nodes wa.2
  { nodes := connected, ways := wa.1, adjacency := buildFinalAdjacency connected wa.2 }

/-- `OSMRoutingEngine.createFallbackGraph`: the synthetic two-node direct
graph used when the Overpass fetch fails. -/
def createFallbackGraph (dist : DistFn) (start finish : Coordinate) : OSMGraph :=
  let d := dist start finish
  { nodes := [("start", ⟨"start", start.lat, start.lng, []⟩),
              ("end", ⟨"end", finish.lat, finish.lng, []⟩)],
    ways := [("direct", { id := "direct", nodes := ["start", "end"],
                          tags := [("highway", "path")], length := d })],
    adjacency := [("start", [⟨"end", "direct", d, d⟩]),
                  ("end", [⟨"start", "direct", d, d⟩])] }

/-- `OSMRoutingEngine.findNearestNode`: linear scan over the node map,
keeping the first strict improvement (`distance < minDistance`). -/
def findNearestNode (dist : DistFn) (g : OSMGraph) (c : Coordinate) :
    Option String :=
  (g.nodes.foldl
    (fun (acc : Option String × JNum) p =>
      let d := JNum.fin (dist c p.2.coord)
      if jLt d acc.2 then (some p.1, d) else acc)
    (none, .inf)).1

/-- The per-call mutable state of both search loops. -/
structure SearchState where
  distances : SMap JNum
  previous : SMap (Option String)
  unvisited : List String
  iterations : Nat
deriving DecidableEq

/-- The "find unvisited node with minimum distance" scan.  Note the
faithful JavaScript `distances.get(nodeId) || Infinity`: a tentative
distance of `0` (the start node!) is falsy and read as `Infinity`. -/
def scanMin (distances : SMap JNum) (unvisited : List String) :
    Option String × JNum :=
  unvisited.foldl
    (fun acc nodeId =>
      let d := jOrInf (mapGet distances nodeId)
      if jLt d acc.2 then (some nodeId, d) else acc)
    (none, .inf)

/-- Relaxation over the current node's neighbors. -/
def relaxNeighbors (weightOf : AdjEntry → ℚ) (current : String)
    (unvisited : List String) (neighbors : List AdjEntry)
    (dp : SMap JNum × SMap (Option String)) :
    SMap JNum × SMap (Option String) :=
  neighbors.foldl
    (fun dp nb =>
      if nb.nodeId ∈ unvisited then
        let alt := jAdd (jOrZero (mapGet dp.1 current)) (.fin (weightOf nb))
        if jLt alt (jOrInf (mapGet dp.1 nb.nodeId)) then
          (mapSet dp.1 nb.nodeId alt, mapSet dp.2 nb.nodeId (some current))
        else dp
      else dp)
    dp

/-- The main search loop shared by `findShortestPath` (fuel =
`maxIterations` = 50000) and `findBalancedPath` (no cap in the source; its
`while (unvisited.size > 0)` loop removes one node per pass, so fuel =
initial `unvisited.length` reproduces it exactly). -/
def searchLoop (g : OSMGraph) (endId : String) (weightOf : AdjEntry → ℚ) :
    Nat → SearchState → SearchState
  | 0, st => st
  | fuel+1, st =>
      if st.unvisited.isEmpty then st
      else
        let st := { st with iterations := st.iterations + 1 }
        let scan := scanMin st.distances st.unvisited
        match scan.1 with
        | none => st
        | some current =>
            if scan.2 = .inf then st
            else if current = endId then st
            else
              let unvisited := st.unvisited.erase current
              let dp := relaxNeighbors weightOf current unvisited
                          ((mapGet g.adjacency current).getD [])
                          (st.distances, st.previous)
              searchLoop g endId weightOf fuel
                { distances := dp.1, previous := dp.2,
                  unvisited := unvisited, iterations := st.iterations }

/-- Path reconstruction (`while (current !== null) { path.unshift… }`).
The fuel guard returns `none` on a cyclic predecessor map, where the
JavaScript loop would not terminate; callers pass enough fuel for any
acyclic chain. -/
def reconstructPath (previous : SMap (Option String)) :
    Nat → String → List String → Option (List String)
  | 0, _, _ => none
  | fuel+1, current, acc =>
      let acc := current :: acc
      match mapGet previous current with
      | some (some p) =>
          if p = "" then some acc else reconstructPath previous fuel p acc
      | _ => some acc

/-- Initialize every node's tentative distance to `Infinity`. -/
def initDistances (keys : List String) : SMap JNum :=
  keys.foldl (fun m k => mapSet m k .inf) []

/-- Initialize every node's predecessor to `null`. -/
def initPrevious (keys : List String) : SMap (Option String) :=
  keys.foldl (fun m k => mapSet m k none) []

/-- Result of `findShortestPath` together with the number of loop
iterations performed (the code's `iterations` counter). -/
structure SearchOutcome where
  path : Option (List String)
  iterations : Nat
deriving DecidableEq

/-- `const maxIterations = 50000`. -/
def maxIterations : Nat := 50000

/-- `useLength ? neighbor.distance : neighbor.fun_weight`. -/
def selectorWeight (useLength : Bool) (e : AdjEntry) : ℚ :=
  if useLength then e.distance else e.fun_weight

/-- `OSMRoutingEngine.findShortestPath`, also reporting the iteration
count. -/
def findShortestPathFull (g : OSMGraph) (startId endId : String)
    (useLength : Bool) : SearchOutcome :=
  if ¬ mapHas g.nodes startId = true then ⟨none, 0⟩
  else if ¬ mapHas g.nodes endId = true then ⟨none, 0⟩
  else
    let startConns := (mapGet g.adjacency startId).getD []
    let endConns := (mapGet g.adjacency endId).getD []
    if startConns.isEmpty then ⟨none, 0⟩
    else if endConns.isEmpty then ⟨none, 0⟩
    else
      let keys := mapKeys g.nodes
      let distances := mapSet (initDistances keys) startId (.fin 0)
      let previous := initPrevious keys
      let final := searchLoop g endId (selectorWeight useLength) maxIterations
                     ⟨distances, previous, keys, 0⟩
      match mapGet final.previous endId with
      | some (some _) =>
          ⟨reconstructPath final.previous (final.previous.length + 1) endId [],
           final.iterations⟩
      | _ => ⟨none, final.iterations⟩

/-- `OSMRoutingEngine.findShortestPath` (path only). -/
def findShortestPath (g : OSMGraph) (startId endId : String)
    (useLength : Bool) : Option (List String) :=
  (findShortestPathFull g startId endId useLength).path

/-- `(neighbor.distance * 0.7) + (neighbor.fun_weight * 0.3)`. -/
def balancedWeight (e : AdjEntry) : ℚ :=
  e.distance * (7/10) + e.fun_weight * (3/10)

/-- `OSMRoutingEngine.findBalancedPath`: same loop under the blended
weight, with no iteration cap and no start/end existence pre-checks. -/
def findBalancedPath (g : OSMGraph) (startId endId : String) :
    Option (List String) :=
  let keys := mapKeys g.nodes
  let distances := mapSet (initDistances keys) startId (.fin 0)
  let previous := initPrevious keys
  let final := searchLoop g endId balancedWeight keys.length
                 ⟨distances, previous, keys, 0⟩
  match mapGet final.previous endId with
  | some (some _) =>
      reconstructPath final.previous (final.previous.length + 1) endId []
  | _ => none

/-- Entry of `path_types`. -/
structure PathTypeStat where
  distance : ℚ
  time : ℚ
  speed : ℚ
  description : String
deriving DecidableEq

/-- Entry of `surface_types`. -/
structure SurfaceTypeStat where
  distance : ℚ
  time : ℚ
  speed_modifier : ℚ
  description : String
deriving DecidableEq

/-- Entry of `special_areas`. -/
structure SpecialAreaStat where
  distance : ℚ
  time : ℚ
  description : String
deriving DecidableEq

/-- `interface RouteStats` (the `segments` field is always the empty list
in this engine and is omitted). -/
structure RouteStats where
  distance : ℚ
  fun_weight : ℚ
  fun_score : ℚ
  estimated_time : ℚ
  waypoints : Nat
  path_types : SMap PathTypeStat
  surface_types : SMap SurfaceTypeStat
  special_areas : SMap SpecialAreaStat
  avg_speed : ℚ
deriving DecidableEq

/-- `interface RouteResult`. -/
structure RouteResult where
  name : String
  description : String
  coordinates : List Coordinate
  stats : RouteStats
  color : String
  priority : String
deriving DecidableEq

/-- The initial `pathTypes` table of `calculateRouteStats`. -/
def initPathTypes : SMap PathTypeStat :=
  [("footway", ⟨0, 0, 9/2, "Dedicated walkways"⟩),
   ("path", ⟨0, 0, 4, "Natural trails and paths"⟩),
   ("track", ⟨0, 0, 7/2, "Forest trails and dirt roads"⟩),
   ("steps", ⟨0, 0, 5/2, "Stairs and stepped paths"⟩),
   ("residential", ⟨0, 0, 24/5, "Residential streets"⟩),
   ("other", ⟨0, 0, 4, "Other walkable paths"⟩)]

/-- `pathTypes[pathType].distance += …; pathTypes[pathType].time += …`. -/
def ptAdd (pts : SMap PathTypeStat) (key : String) (segd : ℚ) :
    SMap PathTypeStat :=
  match mapGet pts key with
  | some s => mapSet pts key
      { s with distance := s.distance + segd,
               time := s.time + segd / 1000 * (60 / s.speed) }
  | none => pts

/-- Lazy-init-then-accumulate for a special area bucket. -/
def saAdd (sa : SMap SpecialAreaStat) (key desc : String) (speed : ℚ)
    (segd : ℚ) : SMap SpecialAreaStat :=
  let sa := if mapHas sa key then sa else mapSet sa key ⟨0, 0, desc⟩
  match mapGet sa key with
  | some s => mapSet sa key
      { s with distance := s.distance + segd,
               time := s.time + segd / 1000 * (60 / speed) }
  | none => sa

/-- Accumulator of `calculateRouteStats`'s main loop. -/
structure StatsAcc where
  totalDistance : ℚ
  totalFunWeight : ℚ
  pathTypes : SMap PathTypeStat
  specialAreas : SMap SpecialAreaStat
deriving DecidableEq

/-- The main loop of `calculateRouteStats` over consecutive path nodes. -/
def statsLoop (dist : DistFn) (g : OSMGraph) :
    List String → StatsAcc → StatsAcc
  | a :: b :: rest, acc =>
      let acc' :=
        match mapGet g.nodes a, mapGet g.nodes b with
        | some n1, some n2 =>
            let segd := dist n1.coord n2.coord
            let acc := { acc with totalDistance := acc.totalDistance + segd }
            match ((mapGet g.adjacency a).getD []).find?
                    (fun n => n.nodeId = b) with
            | some connection =>
                let acc := { acc with
                  totalFunWeight := acc.totalFunWeight + connection.fun_weight }
                match mapGet g.ways connection.wayId with
                | some way =>
                    let highway :=
                      match mapGet way.tags "highway" with
                      | some h => if h = "" then "other" else h
                      | none => "other"
                    let pathType :=
                      if mapHas acc.pathTypes highway then highway else "other"
                    let acc := { acc with
                      pathTypes := ptAdd acc.pathTypes pathType segd }
                    let acc :=
                      if mapGet way.tags "leisure" = some "park" then
                        let sa := saAdd acc.specialAreas "park"
                                    "Parks and green areas" 4 segd
                        { acc with specialAreas := sa }
                      else acc
                    let acc :=
                      if mapGet way.tags "landuse" = some "forest" ∨
                         mapGet way.tags "natural" = some "wood" then
                        let sa := saAdd acc.specialAreas "forest"
                                    "Forests and wooded areas" (7/2) segd
                        { acc with specialAreas := sa }
                      else acc
                    acc
                | none => acc
            | none => acc
        | _, _ => acc
      statsLoop dist g (b :: rest) acc'
  | _, acc => acc

/-- `OSMRoutingEngine.calculateRouteStats`.  The headline
`estimated_time` uses the flat 4.2 km/h speed; `fun_score` is guarded by
`totalDistance > 0 ? totalDistance / totalFunWeight : 1.0`. -/
def calculateRouteStats (dist : DistFn) (g : OSMGraph) (path : List String) :
    RouteStats :=
  let acc := statsLoop dist g path ⟨0, 0, initPathTypes, []⟩
  let estimatedTime := acc.totalDistance / 1000 * (60 / (21/5))
  { distance := acc.totalDistance,
    fun_weight := acc.totalFunWeight,
    fun_score := if 0 < acc.totalDistance
                 then acc.totalDistance / acc.totalFunWeight else 1,
    estimated_time := estimatedTime,
    waypoints := path.length,
    path_types := acc.pathTypes,
    surface_types := [("unknown", ⟨acc.totalDistance, estimatedTime, 1,
                                   "Mixed surfaces"⟩)],
    special_areas := acc.specialAreas,
    avg_speed := if 0 < acc.totalDistance
                 then (acc.totalDistance / 1000) / (estimatedTime / 60)
                 else 21/5 }

/-- `path.map(nodeId => graph.nodes.get(nodeId)!)` projected to
coordinates.  The `none` branch mirrors the non-null assertion and is
never taken on node ids coming from the graph. -/
def pathCoordinates (g : OSMGraph) (path : List String) : List Coordinate :=
  path.map
    (fun nid =>
      match mapGet g.nodes nid with
      | some n => n.coord
      | none => ⟨0, 0⟩)

/-- `OSMRoutingEngine.createAlternativeRoute`.  `Math.random()` (two calls
per interior point) is modelled by the oracle `rnd`, indexed by position. -/
def createAlternativeRoute (rnd : Nat → ℚ × ℚ) (base : List Coordinate) :
    List Coordinate :=
  base.mapIdx
    (fun i coord =>
      if i = 0 ∨ i = base.length - 1 then coord
      else
        ⟨coord.lat + ((rnd i).1 - 1/2) * (1/1000),
         coord.lng + ((rnd i).2 - 1/2) * (1/1000)⟩)

/-- An `{id, distance}` pair from `findNearbyNodes`. -/
structure NearbyNode where
  id : String
  distance : ℚ
deriving DecidableEq

/-- Stable insertion keeping earlier elements first among equal keys. -/
def insertByDistance (x : NearbyNode) : List NearbyNode → List NearbyNode
  | [] => [x]
  | y :: rest =>
      if y.distance ≤ x.distance then y :: insertByDistance x rest
      else x :: y :: rest

/-- Stable sort by ascending distance (JavaScript `Array.prototype.sort`
is stable, so any stable sort yields the identical list). -/
def sortByDistance (l : List NearbyNode) : List NearbyNode :=
  l.foldl (fun acc x => insertByDistance x acc) []

/-- `OSMRoutingEngine.findNearbyNodes`: all nodes, sorted by distance,
restricted to nodes with connections, first `count`. -/
def findNearbyNodes (dist : DistFn) (g : OSMGraph) (c : Coordinate)
    (count : Nat) : List NearbyNode :=
  let nearby := g.nodes.map (fun p => NearbyNode.mk p.1 (dist c p.2.coord))
  ((sortByDistance nearby).filter
      (fun n => !((mapGet g.adjacency n.id).getD []).isEmpty)).take count

/-- Inner loop of `createSimpleRoute`: try one start candidate against
every end candidate. -/
def firstSimplePathInner (g : OSMGraph) (s : NearbyNode) :
    List NearbyNode → Option (List String)
  | [] => none
  | e :: rest =>
      match findShortestPath g s.id e.id true with
      | some p =>
          if p.length > 1 then some p else firstSimplePathInner g s rest
      | none => firstSimplePathInner g s rest

/-- Outer loop of `createSimpleRoute` over start candidates. -/
def firstSimplePath (g : OSMGraph) (ends : List NearbyNode) :
    List NearbyNode → Option (List String)
  | [] => none
  | s :: rest =>
      match firstSimplePathInner g s ends with
      | some p => some p
      | none => firstSimplePath g ends rest

/-- `OSMRoutingEngine.createSimpleRoute`. -/
def createSimpleRoute (dist : DistFn) (g : OSMGraph)
    (start finish : Coordinate) : Option RouteResult :=
  let nearbyStart := findNearbyNodes dist g start 5
  let nearbyEnd := findNearbyNodes dist g finish 5
  match firstSimplePath g nearbyEnd nearbyStart with
  | some path =>
      some { name := "SIMPLE", description := "Simple walking route",
             coordinates := start :: (pathCoordinates g path ++ [finish]),
             stats := calculateRouteStats dist g path,
             color := "#888888", priority := "speed" }
  | none => none

/-- `OSMRoutingEngine.createFallbackRoutes`: the single DIRECT route
returned from the `catch` branch of `calculateMultipleRoutes`. -/
def createFallbackRoutes (dist : DistFn) (start finish : Coordinate) :
    List RouteResult :=
  let directDistance := dist start finish
  let estimatedTime := directDistance / 1000 * (60 / (21/5))
  [{ name := "DIRECT", description := "Direct route (limited data)",
     coordinates := [start, finish],
     stats := { distance := directDistance,
                fun_weight := directDistance,
                fun_score := 1,
                estimated_time := estimatedTime,
                waypoints := 2,
                path_types := [("other", ⟨directDistance, estimatedTime, 21/5,
                                          "Direct route"⟩)],
                surface_types := [("unknown", ⟨directDistance, estimatedTime, 1,
                                               "Unknown surface"⟩)],
                special_areas := [],
                avg_speed := 21/5 },
     color := "#888888", priority := "speed" }]

/-- `OSMRoutingEngine.calculateMultipleRoutes`, from the point where the
graph is available.  The `catch` branch (reached when a nearest node is
missing and `throw` fires) becomes the `createFallbackRoutes` arm. -/
def calcRoutesFromGraph (dist : DistFn) (rnd : Nat → ℚ × ℚ) (g : OSMGraph)
    (start finish : Coordinate) : List RouteResult :=
  match findNearestNode dist g start, findNearestNode dist g finish with
  | some startNodeId, some endNodeId =>
      let shortestPath := findShortestPath g startNodeId endNodeId true
      let routes : List RouteResult :=
        match shortestPath with
        | some p =>
            [{ name := "SHORTEST", description := "Fastest direct route",
               coordinates := pathCoordinates g p,
               stats := calculateRouteStats dist g p,
               color := "#ff4444", priority := "speed" }]
        | none => []
      let funPath := findShortestPath g startNodeId endNodeId false
      let routes : List RouteResult :=
        match funPath with
        | some p =>
            if some p ≠ shortestPath then
              routes ++
                [{ name := "MOST_FUN", description := "Maximum fun score route",
                   coordinates := pathCoordinates g p,
                   stats := calculateRouteStats dist g p,
                   color := "#44ff44", priority := "fun" }]
            else routes
        | none => routes
      let routes : List RouteResult :=
        if routes.length = 2 then
          match findBalancedPath g startNodeId endNodeId with
          | some p =>
              routes ++
                [{ name := "BALANCED", description := "Good mix of speed and fun",
                   coordinates := pathCoordinates g p,
                   stats := calculateRouteStats dist g p,
                   color := "#4444ff", priority := "balanced" }]
          | none => routes
        else routes
      let routes : List RouteResult :=
        if routes.length = 0 then
          match createSimpleRoute dist g start finish with
          | some r => routes ++ [r]
          | none => routes
        else routes
      let routes : List RouteResult :=
        if routes.length = 1 then
          match routes.head? with
          | some baseRoute =>
              routes ++
                [{ name := "ALTERNATIVE",
                   description := "Alternative scenic route",
                   coordinates := createAlternativeRoute rnd baseRoute.coordinates,
                   stats := calculateRouteStats dist g (shortestPath.getD []),
                   color := "#44ff44", priority := "fun" }]
          | none => routes
        else routes
      routes
  | _, _ => createFallbackRoutes dist start finish

/-- `calculateMultipleRoutes` when the Overpass fetch fails or times out:
`fetchWalkingNetwork` catches the error and hands back
`createFallbackGraph`, and route computation proceeds on that graph. -/
def calcRoutesOnFetchFailure (dist : DistFn) (rnd : Nat → ℚ × ℚ)
    (start finish : Coordinate) : List RouteResult :=
  calcRoutesFromGraph dist rnd (createFallbackGraph dist start finish) start finish

/-! ## Fun-score model -/

theorem calculateFunWeight_eq_div_interestScore (way : OSMWay) (len : ℚ) :
    calculateFunWeight way len = len / interestScore way := by
  unfold calculateFunWeight interestScore walkBonus parkBonus viewpointBonus
    forestBonus waterBonus historicBonus scenicBonus
  split_ifs <;> norm_num

theorem interestScore_ge_one (way : OSMWay) : 1 ≤ interestScore way := by
  have h1 : 0 ≤ walkBonus way := by unfold walkBonus; split_ifs <;> norm_num
  have h2 : 0 ≤ parkBonus way := by unfold parkBonus; split_ifs <;> norm_num
  have h3 : 0 ≤ viewpointBonus way := by
    unfold viewpointBonus; split_ifs <;> norm_num
  have h4 : 0 ≤ forestBonus way := by unfold forestBonus; split_ifs <;> norm_num
  have h5 : 0 ≤ waterBonus way := by unfold waterBonus; split_ifs <;> norm_num
  have h6 : 0 ≤ historicBonus way := by
    unfold historicBonus; split_ifs <;> norm_num
  have h7 : 0 ≤ scenicBonus way := by unfold scenicBonus; split_ifs <;> norm_num
  unfold interestScore
  linarith

theorem interestScore_pos (way : OSMWay) : 0 < interestScore way :=
  lt_of_lt_of_le zero_lt_one (interestScore_ge_one way)

/-- **C6** — For every accepted way, its interest score starts at 1.0 and
is incremented, additively and independently, by +2.0 for a dedicated
walking surface tag, +1.5 for park, +3.0 for viewpoint/attraction, +1.5
for forest/wood, +1.5 for a water feature, +2.0 for historic, and +2.5
for explicitly scenic tags, and the way's fun-weight equals its length
divided by that score: `calculateFunWeight` agrees with the additive
specification score `interestScore` (the sum of the seven independent
bonuses over the base 1). -/
theorem claim_C6_fun_weight_formula (way : OSMWay) (len : ℚ) :
    calculateFunWeight way len =
      len / (1 + walkBonus way + parkBonus way + viewpointBonus way +
             forestBonus way + waterBonus way + historicBonus way +
             scenicBonus way) :=
  calculateFunWeight_eq_div_interestScore way len

/-! ## Adjacent-path reclassification (spec-modelled) -/

/-- **C7** — During graph building, every footway/path/track way that the
lateral-adjacency test flags is deterministically reclassified as an
adjacent sidewalk before fun-scoring (`detectAndReclassifyAdjacentPaths`
runs on `tempWays` in `buildGraph` before `calculateFunWeight` is
applied), and the reclassified way no longer carries a premium natural
path tag: its highway tag becomes `adjacent_sidewalk`, which earns no
dedicated-walking-surface bonus. -/
theorem claim_C7_adjacent_paths_reclassified (adjacent : OSMWay → Bool)
    (ways : List OSMWay) (w : OSMWay) (hmem : w ∈ ways)
    (hnat : mapGet w.tags "highway" = some "footway" ∨
            mapGet w.tags "highway" = some "path" ∨
            mapGet w.tags "highway" = some "track")
    (hadj : adjacent w = true) :
    ∃ w' ∈ detectAndReclassifyAdjacentPaths adjacent ways,
      w'.id = w.id ∧ w'.nodes = w.nodes ∧ w'.length = w.length ∧
      mapGet w'.tags "highway" = some "adjacent_sidewalk" ∧
      hasFunHighway w'.tags = false ∧ walkBonus w' = 0 := by
  refine ⟨{ w with tags := mapSet w.tags "highway" "adjacent_sidewalk" }, ?_,
          rfl, rfl, rfl, ?_, ?_, ?_⟩
  · unfold detectAndReclassifyAdjacentPaths
    refine List.mem_map.mpr ⟨w, hmem, ?_⟩
    rw [if_pos ⟨hnat, hadj⟩]
  · exact mapGet_mapSet_self w.tags "highway" "adjacent_sidewalk"
  · unfold hasFunHighway
    rw [mapGet_mapSet_self w.tags "highway" "adjacent_sidewalk"]
    decide
  · unfold walkBonus
    rw [if_neg]
    intro hcon
    unfold hasFunHighway at hcon
    rw [mapGet_mapSet_self w.tags "highway" "adjacent_sidewalk"] at hcon
    simp [FUN_HIGHWAYS] at hcon

/-- A way used to witness the reclassification theorem. -/
def wEx : OSMWay :=
  { id := "w7", nodes := ["1", "2"], tags := [("highway", "footway")], length := 10 }

/-- All-ways-adjacent predicate for the witness. -/
def adjAll : OSMWay → Bool := fun _ => true

/-- Witness for C7 at a concrete way list. -/
theorem claim_C7_witness :
    ∃ w' ∈ detectAndReclassifyAdjacentPaths adjAll [wEx],
      w'.id = wEx.id ∧ w'.nodes = wEx.nodes ∧ w'.length = wEx.length ∧
      mapGet w'.tags "highway" = some "adjacent_sidewalk" ∧
      hasFunHighway w'.tags = false ∧ walkBonus w' = 0 :=
  claim_C7_adjacent_paths_reclassified adjAll [wEx] wEx (by decide)
    (Or.inl (by decide)) (by decide)

/-! ## Alternative-route generation -/

/-- **C10** — For every coordinate sequence with at least two points, the
alternative-route generator returns a sequence of the same length whose
first and last coordinates are exactly the input's first and last
coordinates. -/
theorem claim_C10_alternative_route_endpoints (rnd : Nat → ℚ × ℚ)
    (base : List Coordinate) (h : 2 ≤ base.length) :
    (createAlternativeRoute rnd base).length = base.length ∧
    (createAlternativeRoute rnd base).head? = base.head? ∧
    (createAlternativeRoute rnd base).getLast? = base.getLast? := by
  refine ⟨by simp [createAlternativeRoute], ?_, ?_⟩
  · unfold createAlternativeRoute
    rw [List.head?_mapIdx]
    cases base with
    | nil => simp at h
    | cons a rest => simp
  · unfold createAlternativeRoute
    rw [List.getLast?_mapIdx]
    cases hlast : base.getLast? with
    | none => simp
    | some a => simp

/-- A fixed random oracle for witnesses (deterministic stand-in for
`Math.random`). -/
def rndEx : Nat → ℚ × ℚ := fun _ => (1/2, 1/2)

/-- A concrete three-point polyline. -/
def baseEx : List Coordinate := [⟨0, 0⟩, ⟨1, 1⟩, ⟨2, 2⟩]

/-- Witness for C10 at a concrete polyline. -/
theorem claim_C10_witness :
    (createAlternativeRoute rndEx baseEx).length = baseEx.length ∧
    (createAlternativeRoute rndEx baseEx).head? = baseEx.head? ∧
    (createAlternativeRoute rndEx baseEx).getLast? = baseEx.getLast? :=
  claim_C10_alternative_route_endpoints rndEx baseEx (by decide)

/-! ## The search loop exits immediately: `distances.get(start) || Infinity`

The min-scan of both search loops reads tentative distances through
`|| Infinity`.  The start node's tentative distance is `0`, which is falsy
in JavaScript, so on the very first iteration every node appears to be at
`Infinity`, no current node is selected, and the loop breaks; the
predecessor map is never written and path reconstruction fails.  The
following lemmas prove this for every graph and every query. -/

theorem foldSet_const_values {α : Type} (c : α) :
    ∀ (keys : List String) (m : SMap α),
      (∀ k v, mapGet m k = some v → v = c) →
      ∀ k v, mapGet (keys.foldl (fun m k => mapSet m k c) m) k = some v → v = c
  | [], _, hm, k, v, h => hm k v h
  | k₀ :: rest, m, hm, k, v, h => by
      refine foldSet_const_values c rest (mapSet m k₀ c) ?_ k v h
      intro k' v' h'
      rcases mapGet_mapSet_cases m k₀ k' c v' h' with ⟨_, hv⟩ | h2
      · exact hv
      · exact hm k' v' h2

theorem initDistances_values (keys : List String) (k : String) (v : JNum)
    (h : mapGet (initDistances keys) k = some v) : v = .inf :=
  foldSet_const_values JNum.inf keys [] (by intro k' v' h'; cases h') k v h

theorem initPrevious_values (keys : List String) (k : String)
    (v : Option String) (h : mapGet (initPrevious keys) k = some v) :
    v = none :=
  foldSet_const_values (none : Option String) keys []
    (by intro k' v' h'; cases h') k v h

/-- After initialization, every tentative distance reads as `Infinity`
through the `|| Infinity` guard: missing and `Infinity` stay `Infinity`,
and the start node's `0` is falsy. -/
theorem jOrInf_init (keys : List String) (startId k : String) :
    jOrInf (mapGet (mapSet (initDistances keys) startId (.fin 0)) k) = .inf := by
  cases h : mapGet (mapSet (initDistances keys) startId (.fin 0)) k with
  | none => rfl
  | some v =>
      rcases mapGet_mapSet_cases (initDistances keys) startId k (.fin 0) v h with
        ⟨_, hv⟩ | h2
      · rw [hv]; rfl
      · rw [initDistances_values keys k v h2]; rfl

theorem scanMin_stuck (distances : SMap JNum)
    (h : ∀ k, jOrInf (mapGet distances k) = .inf) (l : List String) :
    scanMin distances l = (none, .inf) := by
  unfold scanMin
  induction l with
  | nil => rfl
  | cons a l ih =>
      rw [List.foldl_cons]
      simp only [h a, jLt]
      exact ih

theorem searchLoop_of_stuck (g : OSMGraph) (endId : String)
    (weightOf : AdjEntry → ℚ) (fuel : Nat) (st : SearchState)
    (h : ∀ k, jOrInf (mapGet st.distances k) = .inf) :
    (searchLoop g endId weightOf fuel st).previous = st.previous ∧
    (searchLoop g endId weightOf fuel st).iterations ≤ st.iterations + 1 := by
  cases fuel with
  | zero => exact ⟨rfl, Nat.le_succ _⟩
  | succ f =>
      unfold searchLoop
      by_cases he : st.unvisited.isEmpty
      · rw [if_pos he]
        exact ⟨by trivial, Nat.le_succ _⟩
      · rw [if_neg he]
        simp only [scanMin_stuck st.distances h st.unvisited]
        exact ⟨by trivial, le_refl _⟩

/-- `findShortestPath` returns `null` for every graph, every endpoint pair
and both weight selectors. -/
theorem findShortestPathFull_path_none (g : OSMGraph) (startId endId : String)
    (useLength : Bool) : (findShortestPathFull g startId endId useLength).path = none := by
  simp only [findShortestPathFull]
  split_ifs with h1 h2 h3 h4 <;> try rfl
  · have hprev := (searchLoop_of_stuck g endId (selectorWeight useLength)
        maxIterations
        ⟨mapSet (initDistances (mapKeys g.nodes)) startId (.fin 0),
         initPrevious (mapKeys g.nodes), mapKeys g.nodes, 0⟩
        (jOrInf_init (mapKeys g.nodes) startId)).1
    rw [hprev]
    cases hp : mapGet (initPrevious (mapKeys g.nodes)) endId with
    | none => rfl
    | some v =>
        have hv := initPrevious_values (mapKeys g.nodes) endId v hp
        subst hv
        rfl

/-- `findBalancedPath` likewise returns `null` for every input. -/
theorem findBalancedPath_none (g : OSMGraph) (startId endId : String) :
    findBalancedPath g startId endId = none := by
  simp only [findBalancedPath]
  have hprev := (searchLoop_of_stuck g endId balancedWeight
      (mapKeys g.nodes).length
      ⟨mapSet (initDistances (mapKeys g.nodes)) startId (.fin 0),
       initPrevious (mapKeys g.nodes), mapKeys g.nodes, 0⟩
      (jOrInf_init (mapKeys g.nodes) startId)).1
  rw [hprev]
  cases hp : mapGet (initPrevious (mapKeys g.nodes)) endId with
  | none => rfl
  | some v =>
      have hv := initPrevious_values (mapKeys g.nodes) endId v hp
      subst hv
      rfl

/-- The engine's own fallback graph for origin (0,0), destination (0,5):
two nodes joined by one direct edge of length 5. -/
def fallbackGraphEx : OSMGraph := createFallbackGraph distEx ⟨0, 0⟩ ⟨0, 5⟩

/-- **C4** — The claim presumes that the length-selector search and the
other-selector searches can return paths; on the code they never do.  On
the engine's own two-node fallback graph, which contains a direct edge
from `start` to `end`, the length-weighted search, the fun-weighted search
and the blended search all return "no path": the `distances.get(nodeId) ||
Infinity` min-scan treats the start node's tentative distance 0 as falsy,
so Dijkstra aborts on its first iteration for every graph. -/
theorem claim_C4_searches_never_return_paths :
    mapGet fallbackGraphEx.adjacency "start" =
      some [{ nodeId := "end", wayId := "direct", distance := 5, fun_weight := 5 }] ∧
    findShortestPath fallbackGraphEx "start" "end" true = none ∧
    findShortestPath fallbackGraphEx "start" "end" false = none ∧
    findBalancedPath fallbackGraphEx "start" "end" = none :=
  ⟨by with_unfolding_all rfl,
   findShortestPathFull_path_none fallbackGraphEx "start" "end" true,
   findShortestPathFull_path_none fallbackGraphEx "start" "end" false,
   findBalancedPath_none fallbackGraphEx "start" "end"⟩

/-- **C5** — The claim says every weighted search enforces a hard
iteration cap and returns "no path found" when it is exceeded.  In the
code the cap (50000, present only in `findShortestPath`; `findBalancedPath`
has none) is dead: the loop performs exactly one iteration on the fallback
graph — and at most one on any graph — because the falsy-zero min-scan
aborts it, so the cap can never be exceeded. -/
theorem claim_C5_iteration_cap_never_engaged :
    (findShortestPathFull fallbackGraphEx "start" "end" true).iterations = 1 ∧
    1 < maxIterations ∧
    (findShortestPathFull fallbackGraphEx "start" "end" true).path = none :=
  ⟨by with_unfolding_all rfl,
   by norm_num [maxIterations],
   findShortestPathFull_path_none fallbackGraphEx "start" "end" true⟩

/-- **C1** — When the provider fetch fails, `fetchWalkingNetwork` falls
back to the synthetic two-node graph and `calculateMultipleRoutes`
proceeds on it; the spec says the caller then receives exactly one direct
route `[origin, destination]`.  In fact the caller receives the empty
route list: all searches return `null` (falsy-zero bug), so no SHORTEST /
MOST_FUN / BALANCED route is built, `createSimpleRoute` fails for the same
reason, and the ALTERNATIVE clause (which requires exactly one route) does
not fire either. -/
theorem claim_C1_fetch_failure_returns_empty :
    calcRoutesOnFetchFailure distEx rndEx ⟨0, 0⟩ ⟨0, 5⟩ = [] ∧
    (calcRoutesOnFetchFailure distEx rndEx ⟨0, 0⟩ ⟨0, 5⟩).length ≠ 1 := by
  have h : calcRoutesOnFetchFailure distEx rndEx ⟨0, 0⟩ ⟨0, 5⟩ = [] := by
    with_unfolding_all rfl
  exact ⟨h, by rw [h]; decide⟩

/-! ## Route stats (C9) -/

/-- Counterexample to C9 as stated: on the empty path — which the engine
itself passes to `calculateRouteStats` in its ALTERNATIVE branch via
`shortestPath || []` — the reported `fun_score` is the guard value 1.0,
not total distance divided by total fun-weight. -/
theorem claim_C9_counterexample :
    (calculateRouteStats distEx fallbackGraphEx []).fun_score ≠
      (calculateRouteStats distEx fallbackGraphEx []).distance /
        (calculateRouteStats distEx fallbackGraphEx []).fun_weight := by
  have h1 : (calculateRouteStats distEx fallbackGraphEx []).fun_score = 1 := by
    with_unfolding_all rfl
  have h2 : (calculateRouteStats distEx fallbackGraphEx []).distance = 0 := by
    with_unfolding_all rfl
  have h3 : (calculateRouteStats distEx fallbackGraphEx []).fun_weight = 0 := by
    with_unfolding_all rfl
  rw [h1, h2, h3]
  norm_num

/-- **C9 (amended)** — For every path, the assembled route's `fun_score`
equals total distance divided by total fun-weight *whenever the total
distance is positive* (a degenerate zero-distance path reports the guard
value 1.0 instead), and the headline `estimated_time` always equals the
total distance traversed at the flat 4.2 km/h walking speed (in minutes:
`distance / 1000 * (60 / 4.2)`), independent of the per-category
breakdown. -/
theorem claim_C9_route_stats_formulas (dist : DistFn) (g : OSMGraph)
    (path : List String) :
    (0 < (calculateRouteStats dist g path).distance →
      (calculateRouteStats dist g path).fun_score =
        (calculateRouteStats dist g path).distance /
          (calculateRouteStats dist g path).fun_weight) ∧
    ((calculateRouteStats dist g path).distance = 0 →
      (calculateRouteStats dist g path).fun_score = 1) ∧
    (calculateRouteStats dist g path).estimated_time =
      (calculateRouteStats dist g path).distance / 1000 * (60 / (21/5)) := by
  refine ⟨?_, ?_, rfl⟩
  · intro h
    have h' : 0 < (statsLoop dist g path ⟨0, 0, initPathTypes, []⟩).totalDistance := h
    show (if 0 < (statsLoop dist g path ⟨0, 0, initPathTypes, []⟩).totalDistance
          then (statsLoop dist g path ⟨0, 0, initPathTypes, []⟩).totalDistance /
            (statsLoop dist g path ⟨0, 0, initPathTypes, []⟩).totalFunWeight
          else 1) =
        (calculateRouteStats dist g path).distance /
          (calculateRouteStats dist g path).fun_weight
    rw [if_pos h']
    rfl
  · intro h
    have h' : (statsLoop dist g path ⟨0, 0, initPathTypes, []⟩).totalDistance = 0 := h
    show (if 0 < (statsLoop dist g path ⟨0, 0, initPathTypes, []⟩).totalDistance
          then (statsLoop dist g path ⟨0, 0, initPathTypes, []⟩).totalDistance /
            (statsLoop dist g path ⟨0, 0, initPathTypes, []⟩).totalFunWeight
          else 1) = 1
    rw [h']
    norm_num

/-- Witness for the amended C9 on a one-edge path of the fallback graph:
distance 5, fun-weight 5, fun-score 1, time 5/1000·(60/4.2) minutes. -/
theorem claim_C9_witness :
    0 < (calculateRouteStats distEx fallbackGraphEx ["start", "end"]).distance ∧
    (calculateRouteStats distEx fallbackGraphEx ["start", "end"]).fun_score =
      (calculateRouteStats distEx fallbackGraphEx ["start", "end"]).distance /
        (calculateRouteStats distEx fallbackGraphEx ["start", "end"]).fun_weight ∧
    (calculateRouteStats distEx fallbackGraphEx ["start", "end"]).estimated_time =
      (calculateRouteStats distEx fallbackGraphEx ["start", "end"]).distance /
        1000 * (60 / (21/5)) := by
  have hpos : 0 < (calculateRouteStats distEx fallbackGraphEx
      ["start", "end"]).distance := by
    have : (calculateRouteStats distEx fallbackGraphEx
        ["start", "end"]).distance = 5 := by with_unfolding_all rfl
    rw [this]; norm_num
  exact ⟨hpos,
    (claim_C9_route_stats_formulas distEx fallbackGraphEx ["start", "end"]).1 hpos,
    (claim_C9_route_stats_formulas distEx fallbackGraphEx ["start", "end"]).2.2⟩

/-! ## Nearest-node lookup (C8) -/

/-- The scan step of `findNearestNode`. -/
def nearStep (dist : DistFn) (c : Coordinate) (acc : Option String × JNum)
    (p : String × OSMNode) : Option String × JNum :=
  let d := JNum.fin (dist c p.2.coord)
  if jLt d acc.2 then (some p.1, d) else acc

theorem findNearestNode_eq_foldl (dist : DistFn) (g : OSMGraph)
    (c : Coordinate) :
    findNearestNode dist g c =
      (g.nodes.foldl (nearStep dist c) (none, .inf)).1 := rfl

/-- Characterization of the scan from a seeded accumulator: either no
entry improves on the seed, or the result is the first entry achieving
the minimum distance. -/
theorem nearScan_characterize (dist : DistFn) (c : Coordinate) :
    ∀ (l : List (String × OSMNode)) (k₀ : String) (d₀ : ℚ),
      (l.foldl (nearStep dist c) (some k₀, .fin d₀) = (some k₀, .fin d₀) ∧
        ∀ p ∈ l, d₀ ≤ dist c p.2.coord) ∨
      (∃ pre p post, l = pre ++ p :: post ∧
        l.foldl (nearStep dist c) (some k₀, .fin d₀) =
          (some p.1, .fin (dist c p.2.coord)) ∧
        dist c p.2.coord < d₀ ∧
        (∀ q ∈ l, dist c p.2.coord ≤ dist c q.2.coord) ∧
        (∀ q ∈ pre, dist c p.2.coord < dist c q.2.coord))
  | [], k₀, d₀ => Or.inl ⟨rfl, by intro p hp; cases hp⟩
  | p :: l, k₀, d₀ => by
      rw [List.foldl_cons]
      by_cases hd : dist c p.2.coord < d₀
      · have hstep : nearStep dist c (some k₀, .fin d₀) p =
            (some p.1, .fin (dist c p.2.coord)) := by
          unfold nearStep jLt
          simp [hd]
        rw [hstep]
        rcases nearScan_characterize dist c l p.1 (dist c p.2.coord) with
          ⟨heq, hall⟩ | ⟨pre, q, post, hsplit, heq, hlt, hmin, hpre⟩
        · refine Or.inr ⟨[], p, l, rfl, heq, hd, ?_, by intro q hq; cases hq⟩
          intro q hq
          rcases List.mem_cons.mp hq with rfl | hq
          · exact le_refl _
          · exact hall q hq
        · refine Or.inr ⟨p :: pre, q, post, by simp [hsplit], heq,
            lt_trans hlt hd, ?_, ?_⟩
          · intro r hr
            rcases List.mem_cons.mp hr with rfl | hr
            · exact le_of_lt hlt
            · exact hmin r hr
          · intro r hr
            rcases List.mem_cons.mp hr with rfl | hr
            · exact hlt
            · exact hpre r hr
      · have hstep : nearStep dist c (some k₀, .fin d₀) p = (some k₀, .fin d₀) := by
          unfold nearStep jLt
          simp [hd]
        rw [hstep]
        rcases nearScan_characterize dist c l k₀ d₀ with
          ⟨heq, hall⟩ | ⟨pre, q, post, hsplit, heq, hlt, hmin, hpre⟩
        · refine Or.inl ⟨heq, ?_⟩
          intro q hq
          rcases List.mem_cons.mp hq with rfl | hq
          · exact le_of_not_lt hd
          · exact hall q hq
        · refine Or.inr ⟨p :: pre, q, post, by simp [hsplit], heq, hlt, ?_, ?_⟩
          · intro r hr
            rcases List.mem_cons.mp hr with rfl | hr
            · exact le_of_lt (lt_of_lt_of_le hlt (le_of_not_lt hd))
            · exact hmin r hr
          · intro r hr
            rcases List.mem_cons.mp hr with rfl | hr
            · exact lt_of_lt_of_le hlt (le_of_not_lt hd)
            · exact hpre r hr

/-- **C8 (amended)** — Nearest-node lookup returns a node at minimum
great-circle distance from the query; among equidistant nodes the
*earliest in the node map's insertion order* wins (not the lowest node
identity), and the lookup fails (returns `null`) exactly when the graph
has no nodes: there is no absolute distance cap. -/
theorem claim_C8_nearest_node_characterization (dist : DistFn)
    (g : OSMGraph) (c : Coordinate) :
    (findNearestNode dist g c = none ↔ g.nodes = []) ∧
    (∀ k, findNearestNode dist g c = some k →
      ∃ pre nd post, g.nodes = pre ++ (k, nd) :: post ∧
        (∀ p ∈ g.nodes, dist c nd.coord ≤ dist c p.2.coord) ∧
        (∀ p ∈ pre, dist c nd.coord < dist c p.2.coord)) := by
  rw [findNearestNode_eq_foldl]
  cases hg : g.nodes with
  | nil => exact ⟨by simp, by intro k hk; cases hk⟩
  | cons p l =>
      rw [List.foldl_cons]
      have hstep : nearStep dist c (none, .inf) p =
          (some p.1, .fin (dist c p.2.coord)) := by
        unfold nearStep jLt
        simp
      rw [hstep]
      rcases nearScan_characterize dist c l p.1 (dist c p.2.coord) with
        ⟨heq, hall⟩ | ⟨pre, q, post, hsplit, heq, hlt, hmin, hpre⟩
      · constructor
        · rw [heq]
          simp
        · intro k hk
          rw [heq] at hk
          have hk' : p.1 = k := by
            simpa using hk
          subst hk'
          refine ⟨[], p.2, l, by simp, ?_, by intro q hq; cases hq⟩
          intro q hq
          rcases List.mem_cons.mp hq with rfl | hq
          · exact le_refl _
          · exact hall q hq
      · constructor
        · rw [heq]
          simp
        · intro k hk
          rw [heq] at hk
          have hk' : q.1 = k := by
            simpa using hk
          subst hk'
          refine ⟨p :: pre, q.2, post, by simp [hsplit], ?_, ?_⟩
          · intro r hr
            rcases List.mem_cons.mp hr with rfl | hr
            · exact le_of_lt hlt
            · exact hmin r hr
          · intro r hr
            rcases List.mem_cons.mp hr with rfl | hr
            · exact hlt
            · exact hpre r hr

/-- No-way-is-adjacent predicate (reclassification disabled), used where a
concrete instance of the abstract lateral-adjacency test is needed. -/
def adjF : OSMWay → Bool := fun _ => false

/-- Elements for the C8 counterexample: nodes `5` and `3` coincide, node
`9` sits one unit away; ways `5–9` and `3–9` keep every node connected.
Node `5` enters the node map before node `3`. -/
def elemsC8 : List OSMElement :=
  [.node "5" (some 0) (some 0) [],
   .node "3" (some 0) (some 0) [],
   .node "9" (some 0) (some 1) [],
   .way "w1" ["5", "9"] [("highway", "footway")],
   .way "w2" ["3", "9"] [("highway", "footway")]]

/-- The graph the builder produces from `elemsC8`. -/
def gC8 : OSMGraph := buildGraph distEx adjF elemsC8

/-- Counterexample to C8 as stated: nodes `5` and `3` are equidistant from
the query, yet lookup returns `5` (first in insertion order), not the
lower identity `3`; and a query a million units away still succeeds — no
absolute distance cap exists. -/
theorem claim_C8_counterexample :
    findNearestNode distEx gC8 ⟨0, 0⟩ = some "5" ∧
    mapGet gC8.nodes "3" = some ⟨"3", 0, 0, []⟩ ∧
    distEx ⟨0, 0⟩ (OSMNode.mk "3" 0 0 []).coord =
      distEx ⟨0, 0⟩ (OSMNode.mk "5" 0 0 []).coord ∧
    ("3" : String) < "5" ∧
    findNearestNode distEx gC8 ⟨0, 1000000⟩ = some "9" := by
  refine ⟨?_, ?_, ?_, ?_, ?_⟩
  · with_unfolding_all rfl
  · with_unfolding_all rfl
  · with_unfolding_all rfl
  · with_unfolding_all decide
  · with_unfolding_all rfl

/-- Witness for the amended C8: the characterization applied to the
concrete graph `gC8` and query (0,0), whose lookup result is `5`. -/
theorem claim_C8_witness :
    ∃ pre nd post, gC8.nodes = pre ++ ("5", nd) :: post ∧
      (∀ p ∈ gC8.nodes, distEx ⟨0, 0⟩ nd.coord ≤ distEx ⟨0, 0⟩ p.2.coord) ∧
      (∀ p ∈ pre, distEx ⟨0, 0⟩ nd.coord < distEx ⟨0, 0⟩ p.2.coord) :=
  (claim_C8_nearest_node_characterization distEx gC8 ⟨0, 0⟩).2 "5"
    (by with_unfolding_all rfl)

/-! ## Association-list lemmas for the graph-builder invariants -/

theorem mapGet_append_of_none {α : Type} (m m' : SMap α) (k : String)
    (h : mapGet m k = none) : mapGet (m ++ m') k = mapGet m' k := by
  induction m with
  | nil => rfl
  | cons p rest ih =>
      obtain ⟨k₀, v₀⟩ := p
      by_cases hk : k₀ = k
      · simp [mapGet, hk] at h
      · have h' : mapGet rest k = none := by simpa [mapGet, hk] using h
        calc mapGet (((k₀, v₀) :: rest) ++ m') k
            = mapGet (rest ++ m') k := by simp [mapGet, hk]
          _ = mapGet m' k := ih h'

theorem mapGet_append_of_some {α : Type} (m m' : SMap α) (k : String) (v : α)
    (h : mapGet m k = some v) : mapGet (m ++ m') k = some v := by
  induction m with
  | nil => cases h
  | cons p rest ih =>
      obtain ⟨k₀, v₀⟩ := p
      by_cases hk : k₀ = k
      · have hv : v₀ = v := by simpa [mapGet, hk] using h
        subst hv
        simp [mapGet, hk]
      · have h' : mapGet rest k = some v := by simpa [mapGet, hk] using h
        calc mapGet (((k₀, v₀) :: rest) ++ m') k
            = mapGet (rest ++ m') k := by simp [mapGet, hk]
          _ = some v := ih h'

theorem mapGet_some_mem {α : Type} (m : SMap α) (k : String) (v : α)
    (h : mapGet m k = some v) : (k, v) ∈ m := by
  induction m with
  | nil => cases h
  | cons p rest ih =>
      obtain ⟨k₀, v₀⟩ := p
      by_cases hk : k₀ = k
      · subst hk
        have hv : v₀ = v := by simpa [mapGet] using h
        subst hv
        exact List.mem_cons_self _ _
      · have h' : mapGet rest k = some v := by simpa [mapGet, hk] using h
        exact List.mem_cons_of_mem _ (ih h')

theorem mem_mapSet_cases {α : Type} (m : SMap α) (k : String) (v : α)
    (p : String × α) (h : p ∈ mapSet m k v) :
    p ∈ m ∨ p = (k, v) := by
  induction m with
  | nil =>
      simp only [mapSet] at h
      exact Or.inr (by simpa using h)
  | cons q rest ih =>
      obtain ⟨k₀, v₀⟩ := q
      by_cases hk : k₀ = k
      · rw [show mapSet ((k₀, v₀) :: rest) k v = (k, v) :: rest from by
            simp [mapSet, hk]] at h
        rcases List.mem_cons.mp h with rfl | h
        · exact Or.inr rfl
        · exact Or.inl (List.mem_cons_of_mem _ h)
      · rw [show mapSet ((k₀, v₀) :: rest) k v = (k₀, v₀) :: mapSet rest k v from by
            simp [mapSet, hk]] at h
        rcases List.mem_cons.mp h with rfl | h
        · exact Or.inl (List.mem_cons_self _ _)
        · rcases ih h with h | h
          · exact Or.inl (List.mem_cons_of_mem _ h)
          · exact Or.inr h

theorem mapGet_eq_none_iff {α : Type} (m : SMap α) (k : String) :
    mapGet m k = none ↔ k ∉ mapKeys m := by
  induction m with
  | nil => simp [mapGet, mapKeys]
  | cons p rest ih =>
      obtain ⟨k₀, v₀⟩ := p
      by_cases hk : k₀ = k
      · subst hk
        simp [mapGet, mapKeys]
      · simp [mapGet, mapKeys, hk, ih, Ne.symm hk]

theorem mapKeys_mapSet_of_some {α : Type} (m : SMap α) (k : String) (v v₀ : α)
    (h : mapGet m k = some v₀) : mapKeys (mapSet m k v) = mapKeys m := by
  induction m with
  | nil => cases h
  | cons p rest ih =>
      obtain ⟨k₀, w₀⟩ := p
      by_cases hk : k₀ = k
      · subst hk
        simp [mapSet, mapKeys]
      · have h' : mapGet rest k = some v₀ := by simpa [mapGet, hk] using h
        have hr := ih h'
        simp only [mapKeys] at hr ⊢
        simp [mapSet, hk, hr]

theorem mapKeys_mapSet_of_none {α : Type} (m : SMap α) (k : String) (v : α)
    (h : mapGet m k = none) : mapKeys (mapSet m k v) = mapKeys m ++ [k] := by
  induction m with
  | nil => rfl
  | cons p rest ih =>
      obtain ⟨k₀, v₀⟩ := p
      by_cases hk : k₀ = k
      · simp [mapGet, hk] at h
      · have h' : mapGet rest k = none := by simpa [mapGet, hk] using h
        have hr := ih h'
        simp only [mapKeys] at hr ⊢
        simp [mapSet, hk, hr]

theorem mapKeys_append {α : Type} (m m' : SMap α) :
    mapKeys (m ++ m') = mapKeys m ++ mapKeys m' := by
  simp [mapKeys]

theorem nodup_mapSet {α : Type} (m : SMap α) (k : String) (v : α)
    (h : (mapKeys m).Nodup) : (mapKeys (mapSet m k v)).Nodup := by
  cases hg : mapGet m k with
  | some v₀ => rw [mapKeys_mapSet_of_some m k v v₀ hg]; exact h
  | none =>
      rw [mapKeys_mapSet_of_none m k v hg]
      refine List.Nodup.append h (List.nodup_singleton k) ?_
      intro x hx hx'
      rw [List.mem_singleton] at hx'
      rw [hx'] at hx
      exact (mapGet_eq_none_iff m k).mp hg hx

theorem mapGet_adjPush_self (adj : SMap (List AdjEntry)) (k : String)
    (e : AdjEntry) :
    mapGet (adjPush adj k e) k = some ((mapGet adj k).getD [] ++ [e]) := by
  unfold adjPush
  cases hg : mapGet adj k with
  | some l => simpa using mapGet_mapSet_self adj k (l ++ [e])
  | none =>
      rw [mapGet_append_of_none adj [(k, [e])] k hg]
      simp [mapGet]

theorem mapGet_adjPush_ne (adj : SMap (List AdjEntry)) (k k' : String)
    (e : AdjEntry) (h : k' ≠ k) :
    mapGet (adjPush adj k e) k' = mapGet adj k' := by
  unfold adjPush
  cases hg : mapGet adj k with
  | some l => exact mapGet_mapSet_ne adj k k' (l ++ [e]) h
  | none =>
      cases hg' : mapGet adj k' with
      | some v => exact mapGet_append_of_some adj [(k, [e])] k' v hg'
      | none =>
          rw [mapGet_append_of_none adj [(k, [e])] k' hg']
          simp [mapGet, Ne.symm h]

theorem isSome_adjPush_mono (adj : SMap (List AdjEntry)) (k k' : String)
    (e : AdjEntry) (h : (mapGet adj k').isSome = true) :
    (mapGet (adjPush adj k e) k').isSome = true := by
  by_cases hk : k' = k
  · subst hk
    rw [mapGet_adjPush_self]
    rfl
  · rw [mapGet_adjPush_ne adj k k' e hk]
    exact h

theorem isSome_adjPush_self (adj : SMap (List AdjEntry)) (k : String)
    (e : AdjEntry) : (mapGet (adjPush adj k e) k).isSome = true := by
  rw [mapGet_adjPush_self]
  rfl

theorem nodup_adjPush (adj : SMap (List AdjEntry)) (k : String) (e : AdjEntry)
    (h : (mapKeys adj).Nodup) : (mapKeys (adjPush adj k e)).Nodup := by
  unfold adjPush
  cases hg : mapGet adj k with
  | some l => exact nodup_mapSet adj k (l ++ [e]) h
  | none =>
      rw [mapKeys_append]
      refine List.Nodup.append h (List.nodup_singleton k) ?_
      intro x hx hx'
      rw [show mapKeys [(k, [e])] = [k] from rfl, List.mem_singleton] at hx'
      rw [hx'] at hx
      exact (mapGet_eq_none_iff adj k).mp hg hx

theorem mem_adjPush_cases (adj : SMap (List AdjEntry)) (k : String)
    (e : AdjEntry) (p : String × List AdjEntry) (h : p ∈ adjPush adj k e) :
    p ∈ adj ∨
      (p.1 = k ∧ ∀ c ∈ p.2, (∃ cs, mapGet adj k = some cs ∧ c ∈ cs) ∨ c = e) := by
  unfold adjPush at h
  cases hg : mapGet adj k with
  | some l =>
      rw [hg] at h
      rcases mem_mapSet_cases adj k (l ++ [e]) p h with h | h
      · exact Or.inl h
      · subst h
        refine Or.inr ⟨rfl, ?_⟩
        intro c hc
        rcases List.mem_append.mp hc with hc | hc
        · exact Or.inl ⟨l, rfl, hc⟩
        · exact Or.inr (List.mem_singleton.mp hc)
  | none =>
      rw [hg] at h
      rcases List.mem_append.mp h with h | h
      · exact Or.inl h
      · rw [List.mem_singleton] at h
        subst h
        refine Or.inr ⟨rfl, ?_⟩
        intro c hc
        exact Or.inr (List.mem_singleton.mp hc)

/-! ## Connectivity invariant of the built adjacency (C2) -/

/-- Connectivity invariant: every stored adjacency list is non-empty, and
every entry's target is a known node that itself has an adjacency list. -/
def AdjConn (nodes : SMap OSMNode) (adj : SMap (List AdjEntry)) : Prop :=
  ∀ k cs, mapGet adj k = some cs →
    cs ≠ [] ∧ ∀ c ∈ cs, mapHas nodes c.nodeId = true ∧
      (mapGet adj c.nodeId).isSome = true

theorem adjConn_nil (nodes : SMap OSMNode) : AdjConn nodes [] := by
  intro k cs h
  cases h

/-- The symmetric double push of one way segment preserves the
connectivity invariant. -/
theorem segPush_adjconn (nodes : SMap OSMNode) (adj : SMap (List AdjEntry))
    (a b wayId : String) (d sfw : ℚ)
    (ha : mapHas nodes a = true) (hb : mapHas nodes b = true)
    (h : AdjConn nodes adj) :
    AdjConn nodes
      (adjPush (adjPush adj a ⟨b, wayId, d, sfw⟩) b ⟨a, wayId, d, sfw⟩) := by
  set eb : AdjEntry := ⟨b, wayId, d, sfw⟩ with heb
  set ea : AdjEntry := ⟨a, wayId, d, sfw⟩ with hea
  set A1 := adjPush adj a eb with hA1
  set A2 := adjPush A1 b ea with hA2
  have mono2 : ∀ t, (mapGet adj t).isSome = true →
      (mapGet A2 t).isSome = true := by
    intro t ht
    exact isSome_adjPush_mono A1 b t ea (isSome_adjPush_mono adj a t eb ht)
  have hA2a : (mapGet A2 a).isSome = true :=
    isSome_adjPush_mono A1 b a ea (isSome_adjPush_self adj a eb)
  have hA2b : (mapGet A2 b).isSome = true := isSome_adjPush_self A1 b ea
  have holdadj : ∀ t l c, mapGet adj t = some l → c ∈ l →
      mapHas nodes c.nodeId = true ∧ (mapGet A2 c.nodeId).isSome = true := by
    intro t l c hl hc
    obtain ⟨_, hprops⟩ := h t l hl
    obtain ⟨h1, h2⟩ := hprops c hc
    exact ⟨h1, mono2 c.nodeId h2⟩
  intro k cs hk
  by_cases hkb : k = b
  · subst hkb
    rw [hA2, mapGet_adjPush_self A1 k ea] at hk
    obtain rfl : (mapGet A1 k).getD [] ++ [ea] = cs := by
      simpa using hk
    refine ⟨by simp, ?_⟩
    intro c hc
    rcases List.mem_append.mp hc with hc | hc
    · cases hA1k : mapGet A1 k with
      | none => rw [hA1k] at hc; cases hc
      | some l1 =>
          rw [hA1k] at hc
          simp only [Option.getD_some] at hc
          by_cases hba : k = a
          · subst hba
            rw [hA1, mapGet_adjPush_self adj k eb] at hA1k
            obtain rfl : (mapGet adj k).getD [] ++ [eb] = l1 := by
              simpa using hA1k
            rcases List.mem_append.mp hc with hc | hc
            · cases hadjk : mapGet adj k with
              | none => rw [hadjk] at hc; cases hc
              | some l0 =>
                  rw [hadjk] at hc
                  simp only [Option.getD_some] at hc
                  exact holdadj k l0 c hadjk hc
            · rw [List.mem_singleton] at hc
              subst hc
              exact ⟨hb, hA2b⟩
          · rw [hA1, mapGet_adjPush_ne adj a k eb hba] at hA1k
            exact holdadj k l1 c hA1k hc
    · rw [List.mem_singleton] at hc
      subst hc
      exact ⟨ha, hA2a⟩
  · rw [hA2, mapGet_adjPush_ne A1 b k ea hkb] at hk
    by_cases hka : k = a
    · subst hka
      rw [hA1, mapGet_adjPush_self adj k eb] at hk
      obtain rfl : (mapGet adj k).getD [] ++ [eb] = cs := by
        simpa using hk
      refine ⟨by simp, ?_⟩
      intro c hc
      rcases List.mem_append.mp hc with hc | hc
      · cases hadjk : mapGet adj k with
        | none => rw [hadjk] at hc; cases hc
        | some l0 =>
            rw [hadjk] at hc
            simp only [Option.getD_some] at hc
            exact holdadj k l0 c hadjk hc
      · rw [List.mem_singleton] at hc
        subst hc
        exact ⟨hb, hA2b⟩
    · rw [hA1, mapGet_adjPush_ne adj a k eb hka] at hk
      obtain ⟨hne, _⟩ := h k cs hk
      refine ⟨hne, ?_⟩
      intro c hc
      exact holdadj k cs c hk hc

theorem segUpdate_adjconn (dist : DistFn) (nodes : SMap OSMNode)
    (way : OSMWay) (a b : String) (adj : SMap (List AdjEntry))
    (h : AdjConn nodes adj) :
    AdjConn nodes (segUpdate dist nodes way a b adj) := by
  unfold segUpdate
  cases hna : mapGet nodes a with
  | none => exact h
  | some n1 =>
      cases hnb : mapGet nodes b with
      | none => exact h
      | some n2 =>
          exact segPush_adjconn nodes adj a b way.id _ _
            (by simp [mapHas, hna]) (by simp [mapHas, hnb]) h

theorem segUpdate_nodup (dist : DistFn) (nodes : SMap OSMNode)
    (way : OSMWay) (a b : String) (adj : SMap (List AdjEntry))
    (h : (mapKeys adj).Nodup) :
    (mapKeys (segUpdate dist nodes way a b adj)).Nodup := by
  unfold segUpdate
  cases hna : mapGet nodes a with
  | none => exact h
  | some n1 =>
      cases hnb : mapGet nodes b with
      | none => exact h
      | some n2 => exact nodup_adjPush _ b _ (nodup_adjPush adj a _ h)

theorem addWaySegs_adjconn (dist : DistFn) (nodes : SMap OSMNode)
    (way : OSMWay) :
    ∀ (ns : List String) (adj : SMap (List AdjEntry)), AdjConn nodes adj →
      AdjConn nodes (addWaySegs dist nodes way ns adj)
  | [], _, h => h
  | [_], _, h => h
  | a :: b :: rest, adj, h =>
      addWaySegs_adjconn dist nodes way (b :: rest)
        (segUpdate dist nodes way a b adj)
        (segUpdate_adjconn dist nodes way a b adj h)

theorem addWaySegs_nodup (dist : DistFn) (nodes : SMap OSMNode)
    (way : OSMWay) :
    ∀ (ns : List String) (adj : SMap (List AdjEntry)),
      (mapKeys adj).Nodup → (mapKeys (addWaySegs dist nodes way ns adj)).Nodup
  | [], _, h => h
  | [_], _, h => h
  | a :: b :: rest, adj, h =>
      addWaySegs_nodup dist nodes way (b :: rest)
        (segUpdate dist nodes way a b adj)
        (segUpdate_nodup dist nodes way a b adj h)

theorem processWaysAux_adjconn (dist : DistFn) (nodes : SMap OSMNode) :
    ∀ (ways : List OSMWay) (acc : SMap OSMWay × SMap (List AdjEntry)),
      AdjConn nodes acc.2 → (mapKeys acc.2).Nodup →
      AdjConn nodes (processWaysAux dist nodes ways acc).2 ∧
        (mapKeys (processWaysAux dist nodes ways acc).2).Nodup
  | [], _, h1, h2 => ⟨h1, h2⟩
  | _w :: ws, acc, h1, h2 =>
      processWaysAux_adjconn dist nodes ws _
        (addWaySegs_adjconn dist nodes _ _ acc.2 h1)
        (addWaySegs_nodup dist nodes _ _ acc.2 h2)

theorem processWays_adjconn (dist : DistFn) (nodes : SMap OSMNode)
    (ways : List OSMWay) :
    AdjConn nodes (processWays dist nodes ways).2 ∧
      (mapKeys (processWays dist nodes ways).2).Nodup :=
  processWaysAux_adjconn dist nodes ways ([], []) (adjConn_nil nodes)
    List.nodup_nil

theorem mapGet_of_mem_nodup {α : Type} (m : SMap α) (k : String) (v : α)
    (hnd : (mapKeys m).Nodup) (h : (k, v) ∈ m) : mapGet m k = some v := by
  induction m with
  | nil => cases h
  | cons p rest ih =>
      obtain ⟨k₀, v₀⟩ := p
      rcases List.mem_cons.mp h with h | h
      · have h1 : k = k₀ := congrArg Prod.fst h
        have h2 : v = v₀ := congrArg Prod.snd h
        subst h1
        subst h2
        simp [mapGet]
      · have hk : k₀ ≠ k := by
          intro hc
          subst hc
          have : k₀ ∈ mapKeys rest := by
            simpa [mapKeys] using List.mem_map_of_mem Prod.fst h
          have hnotin : k₀ ∉ mapKeys rest := by
            have := hnd
            simp only [mapKeys, List.map_cons, List.nodup_cons] at this
            exact this.1
          exact hnotin this
        have hrest : (mapKeys rest).Nodup := by
          have := hnd
          simp only [mapKeys, List.map_cons, List.nodup_cons] at this
          exact this.2
        simp only [mapGet, hk, if_false]
        exact ih hrest h

/-- Provenance of `collectConnected` entries: every stored node comes from
an adjacency entry with a non-empty list and a known node. -/
theorem collectConnectedAux_get (nodes : SMap OSMNode) :
    ∀ (l : List (String × List AdjEntry)) (m₀ : SMap OSMNode) (k : String)
      (n : OSMNode), mapGet (collectConnectedAux nodes l m₀) k = some n →
      mapGet m₀ k = some n ∨
        ∃ cs, (k, cs) ∈ l ∧ cs.length > 0 ∧ mapGet nodes k = some n
  | [], _, _, _, h => Or.inl h
  | p :: rest, m₀, k, n, h => by
      rcases collectConnectedAux_get nodes rest _ k n h with h' | ⟨cs, hmem, hlen, hn⟩
      · by_cases hc : p.2.length > 0
        · rw [if_pos hc] at h'
          cases hp : mapGet nodes p.1 with
          | none => rw [hp] at h'; exact Or.inl h'
          | some n' =>
              rw [hp] at h'
              rcases mapGet_mapSet_cases m₀ p.1 k n' n h' with ⟨rfl, rfl⟩ | h''
              · exact Or.inr ⟨p.2, by simp, hc, hp⟩
              · exact Or.inl h''
        · rw [if_neg hc] at h'
          exact Or.inl h'
      · exact Or.inr ⟨cs, List.mem_cons_of_mem _ hmem, hlen, hn⟩

theorem collectConnectedAux_has_mono (nodes : SMap OSMNode) :
    ∀ (l : List (String × List AdjEntry)) (m₀ : SMap OSMNode) (k : String),
      mapHas m₀ k = true → mapHas (collectConnectedAux nodes l m₀) k = true
  | [], _, _, h => h
  | p :: rest, m₀, k, h => by
      refine collectConnectedAux_has_mono nodes rest _ k ?_
      by_cases hc : p.2.length > 0
      · rw [if_pos hc]
        cases hp : mapGet nodes p.1 with
        | none => exact h
        | some n' => exact mapHas_mapSet m₀ p.1 k n' h
      · rw [if_neg hc]
        exact h

theorem collectConnectedAux_has (nodes : SMap OSMNode) :
    ∀ (l : List (String × List AdjEntry)) (m₀ : SMap OSMNode) (k : String)
      (cs : List AdjEntry) (n : OSMNode), (k, cs) ∈ l → cs.length > 0 →
      mapGet nodes k = some n →
      mapHas (collectConnectedAux nodes l m₀) k = true
  | [], _, _, _, _, hmem, _, _ => absurd hmem (List.not_mem_nil _)
  | p :: rest, m₀, k, cs, n, hmem, hlen, hn => by
      rcases List.mem_cons.mp hmem with rfl | hmem
      · refine collectConnectedAux_has_mono nodes rest _ k ?_
        rw [if_pos hlen, hn]
        exact mapHas_mapSet_self m₀ k n
      · exact collectConnectedAux_has nodes rest _ k cs n hmem hlen hn

/-- Provenance of final-adjacency entries: everything stored is a filtered
copy of an original adjacency list whose key survived pruning. -/
theorem buildFinalAdjacencyAux_get (connected : SMap OSMNode) :
    ∀ (l : List (String × List AdjEntry)) (m₀ : SMap (List AdjEntry))
      (k : String) (cs : List AdjEntry),
      mapGet (buildFinalAdjacencyAux connected l m₀) k = some cs →
      mapGet m₀ k = some cs ∨
        ∃ cs₀, (k, cs₀) ∈ l ∧ mapHas connected k = true ∧
          cs = cs₀.filter (fun c => mapHas connected c.nodeId) ∧
          cs.length > 0
  | [], _, _, _, h => Or.inl h
  | p :: rest, m₀, k, cs, h => by
      rcases buildFinalAdjacencyAux_get connected rest _ k cs h with
        h' | ⟨cs₀, hmem, hhas, hfil, hlen⟩
      · unfold bfaStep at h'
        by_cases hc : mapHas connected p.1 = true
        · rw [if_pos hc] at h'
          by_cases hv : (p.2.filter (fun c => mapHas connected c.nodeId)).length > 0
          · rw [if_pos hv] at h'
            rcases mapGet_mapSet_cases m₀ p.1 k _ cs h' with ⟨rfl, rfl⟩ | h''
            · exact Or.inr ⟨p.2, by simp, hc, rfl, hv⟩
            · exact Or.inl h''
          · rw [if_neg hv] at h'
            exact Or.inl h'
        · rw [if_neg hc] at h'
          exact Or.inl h'
      · exact Or.inr ⟨cs₀, List.mem_cons_of_mem _ hmem, hhas, hfil, hlen⟩

theorem buildFinalAdjacencyAux_get_of_absent (connected : SMap OSMNode) :
    ∀ (l : List (String × List AdjEntry)) (m₀ : SMap (List AdjEntry))
      (k : String), k ∉ l.map Prod.fst →
      mapGet (buildFinalAdjacencyAux connected l m₀) k = mapGet m₀ k
  | [], _, _, _ => rfl
  | p :: rest, m₀, k, hk => by
      have hk₁ : p.1 ≠ k := fun hc => hk (by simp [hc])
      have hk₂ : k ∉ rest.map Prod.fst := fun hc => hk (by simp [hc])
      have h1 : mapGet (buildFinalAdjacencyAux connected rest
          (bfaStep connected m₀ p)) k = mapGet (bfaStep connected m₀ p) k :=
        buildFinalAdjacencyAux_get_of_absent connected rest
          (bfaStep connected m₀ p) k hk₂
      refine h1.trans ?_
      show mapGet
        (if mapHas connected p.1 then
           (if (p.2.filter (fun c => mapHas connected c.nodeId)).length > 0
            then mapSet m₀ p.1 (p.2.filter (fun c => mapHas connected c.nodeId))
            else m₀)
         else m₀) k = mapGet m₀ k
      by_cases hc : mapHas connected p.1 = true
      · rw [if_pos hc]
        by_cases hv : (p.2.filter (fun c => mapHas connected c.nodeId)).length > 0
        · rw [if_pos hv]
          exact mapGet_mapSet_ne m₀ p.1 k _ (fun h => hk₁ h.symm)
        · rw [if_neg hv]
      · rw [if_neg hc]

theorem buildFinalAdjacencyAux_get_of_mem (connected : SMap OSMNode) :
    ∀ (l : List (String × List AdjEntry)) (m₀ : SMap (List AdjEntry))
      (k : String) (cs₀ : List AdjEntry), (l.map Prod.fst).Nodup →
      (k, cs₀) ∈ l → mapHas connected k = true →
      (cs₀.filter (fun c => mapHas connected c.nodeId)).length > 0 →
      mapGet (buildFinalAdjacencyAux connected l m₀) k =
        some (cs₀.filter (fun c => mapHas connected c.nodeId))
  | [], _, _, _, _, hmem, _, _ => absurd hmem (List.not_mem_nil _)
  | p :: rest, m₀, k, cs₀, hnd, hmem, hhas, hlen => by
      rcases List.mem_cons.mp hmem with heq | hmem
      · subst heq
        have hknotin : k ∉ rest.map Prod.fst := by
          simp only [List.map_cons, List.nodup_cons] at hnd
          exact hnd.1
        have h1 : mapGet (buildFinalAdjacencyAux connected rest
            (bfaStep connected m₀ (k, cs₀))) k =
            mapGet (bfaStep connected m₀ (k, cs₀)) k :=
          buildFinalAdjacencyAux_get_of_absent connected rest
            (bfaStep connected m₀ (k, cs₀)) k hknotin
        refine h1.trans ?_
        show mapGet
          (if mapHas connected k then
             (if (cs₀.filter (fun c => mapHas connected c.nodeId)).length > 0
              then mapSet m₀ k (cs₀.filter (fun c => mapHas connected c.nodeId))
              else m₀)
           else m₀) k =
          some (cs₀.filter (fun c => mapHas connected c.nodeId))
        rw [if_pos hhas, if_pos hlen]
        exact mapGet_mapSet_self m₀ k _
      · have hrest : (rest.map Prod.fst).Nodup := by
          simp only [List.map_cons, List.nodup_cons] at hnd
          exact hnd.2
        exact buildFinalAdjacencyAux_get_of_mem connected rest _ k cs₀ hrest
          hmem hhas hlen

/-- The pruning invariant: over any node map and any adjacency structure
satisfying the connectivity invariant (as every `processWays` output
does), the pruned graph has no isolated nodes and no dangling adjacency
references. -/
theorem graph_pruning_invariant (nodes : SMap OSMNode)
    (adj : SMap (List AdjEntry)) (hconn : AdjConn nodes adj)
    (hnodup : (mapKeys adj).Nodup) :
    (∀ k, mapHas (collectConnected nodes adj) k = true →
       ∃ cs, mapGet (buildFinalAdjacency (collectConnected nodes adj) adj) k =
         some cs ∧ cs ≠ []) ∧
    (∀ k cs c,
       mapGet (buildFinalAdjacency (collectConnected nodes adj) adj) k =
         some cs →
       c ∈ cs → mapHas (collectConnected nodes adj) c.nodeId = true) := by
  constructor
  · intro k hk
    obtain ⟨n, hn⟩ := Option.isSome_iff_exists.mp hk
    rcases collectConnectedAux_get nodes adj [] k n hn with h0 | ⟨cs, hmem, hlen, hnk⟩
    · cases h0
    have hadjk : mapGet adj k = some cs := mapGet_of_mem_nodup adj k cs hnodup hmem
    obtain ⟨hne, hprops⟩ := hconn k cs hadjk
    have hall : ∀ c ∈ cs,
        mapHas (collectConnected nodes adj) c.nodeId = true := by
      intro c hc
      obtain ⟨hhasn, hsome⟩ := hprops c hc
      obtain ⟨cs', hcs'⟩ := Option.isSome_iff_exists.mp hsome
      obtain ⟨hne', _⟩ := hconn c.nodeId cs' hcs'
      obtain ⟨n', hn'⟩ := Option.isSome_iff_exists.mp hhasn
      exact collectConnectedAux_has nodes adj [] c.nodeId cs' n'
        (mapGet_some_mem adj c.nodeId cs' hcs')
        (List.length_pos.mpr hne') hn'
    have hfil : cs.filter
        (fun c => mapHas (collectConnected nodes adj) c.nodeId) = cs :=
      List.filter_eq_self.mpr (fun c hc => hall c hc)
    have hlen' : (cs.filter
        (fun c => mapHas (collectConnected nodes adj) c.nodeId)).length > 0 := by
      rw [hfil]
      exact List.length_pos.mpr hne
    refine ⟨cs.filter (fun c => mapHas (collectConnected nodes adj) c.nodeId),
      buildFinalAdjacencyAux_get_of_mem (collectConnected nodes adj) adj []
        k cs hnodup hmem hk hlen', ?_⟩
    rw [hfil]
    exact hne
  · intro k cs c hget hc
    rcases buildFinalAdjacencyAux_get (collectConnected nodes adj) adj [] k cs
      hget with h0 | ⟨cs₀, _, _, hfil, _⟩
    · cases h0
    subst hfil
    exact (List.mem_filter.mp hc).2

/-- **C2** — For every graph returned by the graph builder, every node it
contains has at least one (non-empty) adjacency entry, and every
adjacency entry references a node present in the graph: no isolated nodes
and no dangling references survive pruning. -/
theorem claim_C2_no_isolated_no_dangling (dist : DistFn)
    (adjacent : OSMWay → Bool) (elems : List OSMElement) :
    (∀ k, mapHas (buildGraph dist adjacent elems).nodes k = true →
       ∃ cs, mapGet (buildGraph dist adjacent elems).adjacency k = some cs ∧
         cs ≠ []) ∧
    (∀ k cs c,
       mapGet (buildGraph dist adjacent elems).adjacency k = some cs →
       c ∈ cs →
       mapHas (buildGraph dist adjacent elems).nodes c.nodeId = true) := by
  have hc := processWays_adjconn dist (collectNodes elems)
    (detectAndReclassifyAdjacentPaths adjacent
      (collectTempWays dist (collectNodes elems) elems))
  exact graph_pruning_invariant (collectNodes elems) _ hc.1 hc.2

/-- Witness for C2 on the concrete builder output `gC8`: node `5` has a
non-empty adjacency list, and its entry's target `9` is in the graph. -/
theorem claim_C2_witness :
    (∃ cs, mapGet (buildGraph distEx adjF elemsC8).adjacency "5" = some cs ∧
       cs ≠ []) ∧
    mapHas (buildGraph distEx adjF elemsC8).nodes "9" = true :=
  ⟨(claim_C2_no_isolated_no_dangling distEx adjF elemsC8).1 "5"
      (by with_unfolding_all rfl),
   (claim_C2_no_isolated_no_dangling distEx adjF elemsC8).2 "5"
      [⟨"9", "w1", 1, 1/3⟩] ⟨"9", "w1", 1, 1/3⟩
      (by with_unfolding_all rfl) (List.mem_singleton.mpr rfl)⟩

/-! ## Fun-weight bounds on adjacency entries (C3) -/

/-- Bounds satisfied by every adjacency entry the builder creates: the
segment fun-weight is between 0 and the segment length, and positive
whenever the length is. -/
def EntryBounds (c : AdjEntry) : Prop :=
  0 ≤ c.distance ∧ 0 ≤ c.fun_weight ∧ c.fun_weight ≤ c.distance ∧
    (0 < c.distance → 0 < c.fun_weight)

/-- Every entry stored anywhere in an adjacency structure satisfies `P`. -/
def EntriesP (P : AdjEntry → Prop) (adj : SMap (List AdjEntry)) : Prop :=
  ∀ p ∈ adj, ∀ c ∈ p.2, P c

theorem entriesP_nil (P : AdjEntry → Prop) : EntriesP P [] :=
  fun p hp => absurd hp (List.not_mem_nil p)

theorem entriesP_adjPush (P : AdjEntry → Prop) (adj : SMap (List AdjEntry))
    (k : String) (e : AdjEntry) (h : EntriesP P adj) (he : P e) :
    EntriesP P (adjPush adj k e) := by
  intro p hp c hc
  rcases mem_adjPush_cases adj k e p hp with hp' | ⟨_, hall⟩
  · exact h p hp' c hc
  · rcases hall c hc with ⟨cs, hg, hc'⟩ | rfl
    · exact h (k, cs) (mapGet_some_mem adj k cs hg) c hc'
    · exact he

/-- The apportioned segment weight
`(way.fun_weight || d) * (d / way.length)` with `fun_weight = length /
score`, `length ≥ 1`, `score ≥ 1` and `d ≥ 0` satisfies the bounds:
it equals `d / score`. -/
theorem entry_bounds_formula (t w : String) (d L s : ℚ)
    (hd : 0 ≤ d) (hL : 1 ≤ L) (hs : 1 ≤ s) :
    EntryBounds ⟨t, w, d, (if L / s = 0 then d else L / s) * (d / L)⟩ := by
  have hs0 : (0:ℚ) < s := lt_of_lt_of_le zero_lt_one hs
  have hL0 : (0:ℚ) < L := lt_of_lt_of_le zero_lt_one hL
  have hs' : s ≠ 0 := ne_of_gt hs0
  have hL' : L ≠ 0 := ne_of_gt hL0
  have hfw : L / s ≠ 0 := ne_of_gt (div_pos hL0 hs0)
  have hval : (if L / s = 0 then d else L / s) * (d / L) = d / s := by
    rw [if_neg hfw]
    field_simp
    ring
  show 0 ≤ d ∧ 0 ≤ (if L / s = 0 then d else L / s) * (d / L) ∧
    (if L / s = 0 then d else L / s) * (d / L) ≤ d ∧
    (0 < d → 0 < (if L / s = 0 then d else L / s) * (d / L))
  rw [hval]
  exact ⟨hd, div_nonneg hd hs0.le, div_le_self hd hs,
    fun h => div_pos h hs0⟩

theorem segUpdate_entries (dist : DistFn) (nodes : SMap OSMNode)
    (way : OSMWay) (a b : String) (adj : SMap (List AdjEntry))
    (hdist : ∀ p q, 0 ≤ dist p q) (hL : 1 ≤ way.length)
    (hfw : ∃ s, 1 ≤ s ∧ way.fun_weight = way.length / s)
    (h : EntriesP EntryBounds adj) :
    EntriesP EntryBounds (segUpdate dist nodes way a b adj) := by
  unfold segUpdate
  cases hna : mapGet nodes a with
  | none => exact h
  | some n1 =>
      cases hnb : mapGet nodes b with
      | none => exact h
      | some n2 =>
          obtain ⟨s, hs, hw⟩ := hfw
          have heb : EntryBounds ⟨b, way.id, dist n1.coord n2.coord,
              (if way.fun_weight = 0 then dist n1.coord n2.coord
               else way.fun_weight) * (dist n1.coord n2.coord / way.length)⟩ := by
            rw [hw]
            exact entry_bounds_formula b way.id _ way.length s
              (hdist _ _) hL hs
          have hea : EntryBounds ⟨a, way.id, dist n1.coord n2.coord,
              (if way.fun_weight = 0 then dist n1.coord n2.coord
               else way.fun_weight) * (dist n1.coord n2.coord / way.length)⟩ := by
            rw [hw]
            exact entry_bounds_formula a way.id _ way.length s
              (hdist _ _) hL hs
          exact entriesP_adjPush EntryBounds _ b _
            (entriesP_adjPush EntryBounds adj a _ h heb) hea

theorem addWaySegs_entries (dist : DistFn) (nodes : SMap OSMNode)
    (way : OSMWay) (hdist : ∀ p q, 0 ≤ dist p q) (hL : 1 ≤ way.length)
    (hfw : ∃ s, 1 ≤ s ∧ way.fun_weight = way.length / s) :
    ∀ (ns : List String) (adj : SMap (List AdjEntry)),
      EntriesP EntryBounds adj →
      EntriesP EntryBounds (addWaySegs dist nodes way ns adj)
  | [], _, h => h
  | [_], _, h => h
  | a :: b :: rest, adj, h =>
      addWaySegs_entries dist nodes way hdist hL hfw (b :: rest)
        (segUpdate dist nodes way a b adj)
        (segUpdate_entries dist nodes way a b adj hdist hL hfw h)

theorem processWaysAux_entries (dist : DistFn) (nodes : SMap OSMNode)
    (hdist : ∀ p q, 0 ≤ dist p q) :
    ∀ (ways : List OSMWay) (acc : SMap OSMWay × SMap (List AdjEntry)),
      (∀ w ∈ ways, 1 ≤ w.length) → EntriesP EntryBounds acc.2 →
      EntriesP EntryBounds (processWaysAux dist nodes ways acc).2
  | [], _, _, h => h
  | w :: ws, acc, hlen, h => by
      have hw : 1 ≤ w.length := hlen w (List.mem_cons_self _ _)
      have hfweq : ({ w with fun_weight := calculateFunWeight w w.length } :
            OSMWay).fun_weight =
          ({ w with fun_weight := calculateFunWeight w w.length } :
            OSMWay).length /
            interestScore { w with fun_weight := calculateFunWeight w w.length } :=
        calculateFunWeight_eq_div_interestScore w w.length
      refine processWaysAux_entries dist nodes hdist ws _
        (fun w' hw' => hlen w' (List.mem_cons_of_mem _ hw')) ?_
      exact addWaySegs_entries dist nodes
        { w with fun_weight := calculateFunWeight w w.length } hdist hw
        ⟨interestScore { w with fun_weight := calculateFunWeight w w.length },
         interestScore_ge_one _, hfweq⟩
        _ acc.2 h

theorem tempWayStep_length (dist : DistFn) (nodes : SMap OSMNode)
    (acc : List OSMWay) (e : OSMElement)
    (h : ∀ w ∈ acc, 1 ≤ w.length) :
    ∀ w ∈ tempWayStep dist nodes acc e, 1 ≤ w.length := by
  intro w hw
  cases e with
  | node nid lat lng ntags =>
      simp only [tempWayStep] at hw
      exact h w hw
  | way id wayNodes tags =>
      simp only [tempWayStep] at hw
      by_cases h1 : wayNodes.length > 1
      case neg => rw [if_neg h1] at hw; exact h w hw
      rw [if_pos h1] at hw
      by_cases h2 : mapGet tags "foot" = some "no" ∨
          mapGet tags "access" = some "private"
      case pos => rw [if_pos h2] at hw; exact h w hw
      rw [if_neg h2] at hw
      by_cases h3 : mapGet tags "highway" = some "motorway" ∨
          mapGet tags "highway" = some "trunk" ∨
          mapGet tags "highway" = some "motorway_link" ∨
          mapGet tags "highway" = some "trunk_link"
      case pos => rw [if_pos h3] at hw; exact h w hw
      rw [if_neg h3] at hw
      by_cases h4 : (wayNodes.filter (fun nid => mapHas nodes nid)).length < 2
      case pos => rw [if_pos h4] at hw; exact h w hw
      rw [if_neg h4] at hw
      by_cases h5 : wayLength dist nodes
          (wayNodes.filter (fun nid => mapHas nodes nid)) < 1
      case pos => rw [if_pos h5] at hw; exact h w hw
      rw [if_neg h5] at hw
      rcases List.mem_append.mp hw with hw | hw
      · exact h w hw
      · rw [List.mem_singleton] at hw
        subst hw
        exact le_of_not_lt h5

theorem collectTempWaysAux_length (dist : DistFn) (nodes : SMap OSMNode) :
    ∀ (elems : List OSMElement) (acc : List OSMWay),
      (∀ w ∈ acc, 1 ≤ w.length) →
      ∀ w ∈ collectTempWaysAux dist nodes elems acc, 1 ≤ w.length
  | [], _, h => h
  | e :: rest, acc, h =>
      collectTempWaysAux_length dist nodes rest (tempWayStep dist nodes acc e)
        (tempWayStep_length dist nodes acc e h)

theorem detect_length_ge (adjacent : OSMWay → Bool) (ws : List OSMWay)
    (h : ∀ w ∈ ws, 1 ≤ w.length) :
    ∀ w' ∈ detectAndReclassifyAdjacentPaths adjacent ws, 1 ≤ w'.length := by
  intro w' hw'
  unfold detectAndReclassifyAdjacentPaths at hw'
  rcases List.mem_map.mp hw' with ⟨w, hw, rfl⟩
  split_ifs
  · exact h w hw
  · exact h w hw

theorem bfaAux_entriesP (P : AdjEntry → Prop) (connected : SMap OSMNode) :
    ∀ (l : List (String × List AdjEntry)) (m₀ : SMap (List AdjEntry)),
      (∀ p ∈ l, ∀ c ∈ p.2, P c) → EntriesP P m₀ →
      EntriesP P (buildFinalAdjacencyAux connected l m₀)
  | [], _, _, h₀ => h₀
  | p :: rest, m₀, hl, h₀ => by
      refine bfaAux_entriesP P connected rest (bfaStep connected m₀ p)
        (fun q hq c hc => hl q (List.mem_cons_of_mem _ hq) c hc) ?_
      intro q hq c hc
      unfold bfaStep at hq
      by_cases hcn : mapHas connected p.1 = true
      · rw [if_pos hcn] at hq
        by_cases hv : (p.2.filter (fun c => mapHas connected c.nodeId)).length > 0
        · rw [if_pos hv] at hq
          rcases mem_mapSet_cases m₀ p.1 _ q hq with hq' | rfl
          · exact h₀ q hq' c hc
          · exact hl p (List.mem_cons_self _ _) c (List.mem_of_mem_filter hc)
        · rw [if_neg hv] at hq
          exact h₀ q hq c hc
      · rw [if_neg hcn] at hq
        exact h₀ q hq c hc

/-- Counterexample to C3 as stated: a way through two coincident nodes
(`a` and `b` at the same coordinates, then `c` two units away) passes the
1-meter way filter, yet its zero-length segment gets fun-weight 0 — not
strictly positive. -/
def elemsC3 : List OSMElement :=
  [.node "a" (some 0) (some 0) [],
   .node "b" (some 0) (some 0) [],
   .node "c" (some 0) (some 2) [],
   .way "w" ["a", "b", "c"] [("highway", "footway")]]

/-- The claim "fun-weight > 0" fails on the builder output for `elemsC3`:
the edge from `a` to its coincident neighbor `b` has distance 0 and
fun-weight 0. -/
theorem claim_C3_counterexample :
    ∃ cs c, mapGet (buildGraph distEx adjF elemsC3).adjacency "a" = some cs ∧
      c ∈ cs ∧ ¬ 0 < c.fun_weight := by
  refine ⟨[⟨"b", "w", 0, 0⟩], ⟨"b", "w", 0, 0⟩, ?_,
    List.mem_singleton.mpr rfl, by norm_num⟩
  with_unfolding_all rfl

/-- **C3 (amended)** — For every edge (adjacency entry) of a graph
produced by the graph builder (under any non-negative distance function,
as the haversine is), the edge's fun-weight is non-negative, at most the
edge's length, and strictly positive whenever the edge's length is
strictly positive.  (A zero-length segment between coincident nodes gets
fun-weight exactly 0, so strict positivity does not hold unconditionally.) -/
theorem claim_C3_fun_weight_bounds (dist : DistFn)
    (adjacent : OSMWay → Bool) (elems : List OSMElement)
    (hdist : ∀ p q, 0 ≤ dist p q) :
    ∀ k cs c, mapGet (buildGraph dist adjacent elems).adjacency k = some cs →
      c ∈ cs →
      0 ≤ c.fun_weight ∧ c.fun_weight ≤ c.distance ∧
        (0 < c.distance → 0 < c.fun_weight) := by
  intro k cs c hget hc
  have hTW : ∀ w ∈ collectTempWays dist (collectNodes elems) elems,
      1 ≤ w.length :=
    collectTempWaysAux_length dist (collectNodes elems) elems []
      (fun w hw => absurd hw (List.not_mem_nil w))
  have hTW' := detect_length_ge adjacent _ hTW
  have hadj : EntriesP EntryBounds
      (processWays dist (collectNodes elems)
        (detectAndReclassifyAdjacentPaths adjacent
          (collectTempWays dist (collectNodes elems) elems))).2 :=
    processWaysAux_entries dist (collectNodes elems) hdist _ ([], []) hTW'
      (entriesP_nil EntryBounds)
  have hfin : EntriesP EntryBounds
      (buildFinalAdjacency
        (collectConnected (collectNodes elems)
          (processWays dist (collectNodes elems)
            (detectAndReclassifyAdjacentPaths adjacent
              (collectTempWays dist (collectNodes elems) elems))).2)
        (processWays dist (collectNodes elems)
          (detectAndReclassifyAdjacentPaths adjacent
            (collectTempWays dist (collectNodes elems) elems))).2) :=
    bfaAux_entriesP EntryBounds _ _ [] (fun p hp c' hc' => hadj p hp c' hc')
      (entriesP_nil EntryBounds)
  have hmem : (k, cs) ∈ (buildGraph dist adjacent elems).adjacency :=
    mapGet_some_mem _ k cs hget
  have hb : EntryBounds c := hfin (k, cs) hmem c hc
  exact ⟨hb.2.1, hb.2.2.1, hb.2.2.2⟩

/-- Witness for the amended C3 on the builder output `gC8`: the edge from
node `5` to node `9` has length 1 and fun-weight 1/3. -/
theorem claim_C3_witness :
    0 ≤ (AdjEntry.mk "9" "w1" 1 (1/3)).fun_weight ∧
    (AdjEntry.mk "9" "w1" 1 (1/3)).fun_weight ≤
      (AdjEntry.mk "9" "w1" 1 (1/3)).distance ∧
    (0 < (AdjEntry.mk "9" "w1" 1 (1/3)).distance →
      0 < (AdjEntry.mk "9" "w1" 1 (1/3)).fun_weight) :=
  claim_C3_fun_weight_bounds distEx adjF elemsC8 distEx_nonneg "5"
    [⟨"9", "w1", 1, 1/3⟩] ⟨"9", "w1", 1, 1/3⟩
    (by with_unfolding_all rfl) (List.mem_singleton.mpr rfl)

end FunWalk
